import Mathlib

/-!
Verification of the `@pskzcompany/graylog` GELF UDP client (`src/index.ts`).

The development shallowly embeds the parts of the client that the verified
properties are about:

* the payload builder `_log` (GELF record construction, severity levels,
  metadata handling, the `_id` renaming rule);
* the transport pipeline `send` / `_sendData` / `_sendChunkedStream` /
  `_sendChunk` (compression dispatch, GELF chunking, in-flight counters,
  round-robin server selection);
* the drain logic `close` / `destroy`.

JavaScript `Buffer`s are embedded as `List Nat` (byte values; overflow never
occurs in the embedded fragment because every stored value is at most 255 by
construction or hypothesis), JS numbers used as counters are embedded as `Int`,
and the GELF payload object is embedded as an association list with JS object
semantics (`objGet` / `objSet` / `objDel`).  Asynchrony collapses to sequential
execution: the client awaits every chunk before sending the next one, so the
event order of one send is exactly the sequential order modelled here.
-/

namespace GraylogModel

/-- A JS value that can appear in a GELF payload field or in the caller `meta`
object: a string, a number (modelled as `Int`; the claims never involve
fractional values), a `Date` (carrying its millisecond epoch time), or
`undefined`. -/
inductive Val where
  | str (s : String)
  | num (n : Int)
  | date (ms : Int)
  | undef
deriving DecidableEq, Repr

/-- JS truthiness for the values of `Val`: `""`, `0` and `undefined` are falsy,
every other string/number and every `Date` object is truthy. -/
def truthy : Val → Bool
  | .str s => decide (s ≠ "")
  | .num n => decide (n ≠ 0)
  | .date _ => true
  | .undef => false

/-- Read a property of a JS object embedded as an association list. -/
def objGet : List (String × Val) → String → Option Val
  | [], _ => none
  | (k1, v1) :: rest, k => if k1 = k then some v1 else objGet rest k

/-- Assign a property of a JS object: overwrite in place if the key exists,
append otherwise (JS objects keep insertion order). -/
def objSet : List (String × Val) → String → Val → List (String × Val)
  | [], k, v => [(k, v)]
  | (k1, v1) :: rest, k, v =>
      if k1 = k then (k, v) :: rest else (k1, v1) :: objSet rest k v

/-- JS `delete obj[k]`: remove the key from the object. -/
def objDel (o : List (String × Val)) (k : String) : List (String × Val) :=
  o.filter (fun kv => kv.1 ≠ k)

/-- The `meta` keys removed by the destructuring
`const { facility, full_message, level, hostname, timestamp, ...additionalParams } = meta`
in `_log`; every other key lands in `additionalParams`. -/
def reservedMetaKeys : List String :=
  ["facility", "full_message", "level", "hostname", "timestamp"]

/-- JS `timestamp instanceof Date ? timestamp.getTime() / 1000 : timestamp`
(JS float division stands in as integer division; no claim is about the
numeric value of a timestamp). -/
def tsToNum : Val → Val
  | .date ms => .num (ms / 1000)
  | v => v

/-- The `if (facility) … if (timestamp)` block of `_log`: apply the truthy
reserved `meta` keys onto the payload. -/
def applyReservedOverrides (p : List (String × Val)) (m : List (String × Val)) :
    List (String × Val) :=
  let p2 := match objGet m "facility" with
    | some v => if truthy v then objSet p "facility" v else p
    | none => p
  let p3 := match objGet m "full_message" with
    | some v => if truthy v then objSet p2 "full_message" v else p2
    | none => p2
  let p4 := match objGet m "level" with
    | some v => if truthy v then objSet p3 "level" v else p3
    | none => p3
  let p5 := match objGet m "hostname" with
    | some v => if truthy v then objSet p4 "hostname" v else p4
    | none => p4
  match objGet m "timestamp" with
  | some v => if truthy v then objSet p5 "timestamp" (tsToNum v) else p5
  | none => p5

/-- The `for (const field in additionalParams) payload['_' + field] = …` loop
of `_log`: every non-reserved `meta` key is written with a leading
underscore. -/
def addAdditionalFields (p : List (String × Val)) (m : List (String × Val)) :
    List (String × Val) :=
  (m.filter (fun kv => ¬ reservedMetaKeys.contains kv.1)).foldl
    (fun acc kv => objSet acc ("_" ++ kv.1) kv.2) p

/-- The `if (payload._id) { payload.__id = payload._id; delete payload._id }`
step of `_log`. -/
def applyIdRule (p : List (String × Val)) : List (String × Val) :=
  match objGet p "_id" with
  | some v => if truthy v then objDel (objSet p "__id" v) "_id" else p
  | none => p

/-- The payload construction of `_log` (src/index.ts).  `msg` is embedded for
the string branch (`typeof msg === 'string'`); the `Error` and generic-object
branches only affect `short_message` / `full_message` / `_file` / `_line` and
are outside every verified property.  `level` is the numeric level argument
passed by the named severity methods (`undefined` for a plain low-level call),
embedded as `Option Nat`.  Note the JS expressions `level || GelfLevelEnum.INFO`
and `if (level) payload.level = level`, which treat the numeric level `0` as
absent. -/
def buildPayload (hostname facility : String) (nowMs : Int) (msg : String)
    (meta : Option (List (String × Val))) (level : Option Nat) :
    List (String × Val) :=
  let metaTs : Val :=
    match meta with
    | none => .undef
    | some m => match objGet m "timestamp" with
      | some v => v
      | none => .undef
  let ts : Val := if truthy metaTs then metaTs else .num (nowMs / 1000)
  let p0 : List (String × Val) :=
    [("version", .str "1.1"),
     ("timestamp", ts),
     ("host", .str hostname),
     ("facility", .str facility),
     ("level", .num (match level with
       | none => 6
       | some l => if l = 0 then 6 else (l : Int)))]
  let p1 := objSet p0 "short_message" (.str msg)
  match meta with
  | none => p1
  | some m => applyIdRule (addAdditionalFields (applyReservedOverrides p1 m) m)

/-- The named severity methods of the client facade. -/
inductive Severity where
  | emergency | alert | critical | error | warning | warn
  | notice | info | log | debug
deriving DecidableEq, Repr

/-- The fixed numeric level each named severity method passes to `_log`
(src/index.ts, the `GelfLevelEnum` member in each method body). -/
def methodLevel : Severity → Nat
  | .emergency => 0
  | .alert => 1
  | .critical => 2
  | .error => 3
  | .warning => 4
  | .warn => 4
  | .notice => 5
  | .info => 6
  | .log => 6
  | .debug => 7

/-- Outcome of one `client.send(...)` call on the UDP socket, as exercised by
the repository itself: the callback reports success with the byte count, the
callback reports an error, or the call throws synchronously before ever
invoking the callback (the repository's own tests stub the socket with
`send = () => { throw new Error('Connection error') }`). -/
inductive TransportOutcome where
  | ok | cbErr | throwSyn
deriving DecidableEq, Repr

/-- Counter events, in execution order: `_unsentMessages += 1` / `-= 1` and
`_unsentChunks += 1` / `-= 1`. -/
inductive Ev where
  | beginMsg | endMsg | beginChunk | endChunk
deriving DecidableEq, Repr

/-- The errors the embedded fragment can raise. -/
inductive GErr where
  | sizeExceeded (maxBytes : Nat)
  | socketDestroyed
  | transport
deriving DecidableEq, Repr

/-- The environment: the external capabilities the client consumes.
`randomId k` is the value of the `k`-th `crypto.randomBytes(8)` draw,
`outcome k` is the behaviour of the `k`-th socket `send` attempt, and
`deflate` is the zlib compression function (uninterpreted). -/
structure Env where
  randomId : Nat → List Nat
  outcome : Nat → TransportOutcome
  deflate : List Nat → List Nat

/-- The mutable instance state of a `Graylog` client that the verified
properties observe: `_callCount`, the number of random ids drawn so far,
the number of socket send attempts so far, whether `this.client` holds a
socket, whether `this._destroyIfNeeded` is installed, and the two in-flight
counters. -/
structure St where
  callCount : Nat
  randomUsed : Nat
  attempts : Nat
  client : Bool
  closing : Bool
  unsentMessages : Int
  unsentChunks : Int
deriving DecidableEq, Repr

/-- One transmitted UDP datagram: its bytes and the index of the destination
server in the configured server list. -/
structure Datagram where
  bytes : List Nat
  server : Nat
deriving DecidableEq, Repr

/-- Result of a send-path call: the settled promise value, the state after the
call, the datagrams actually handed to the network, and the counter events in
execution order. -/
structure SendRes where
  res : Except GErr Nat
  st : St
  sent : List Datagram
  trace : List Ev
deriving Repr

/-- Method `getServer()`: `return this.servers[this._callCount++ % this.servers.length]`
for a server list of length `N`, returned as the selected index. -/
def getServerM (N : Nat) (s : St) : Nat × St :=
  (s.callCount % N, { s with callCount := s.callCount + 1 })

/-- Method `getClient()`: create the UDP socket on first use, reuse it afterwards. -/
def getClientM (s : St) : St :=
  { s with client := true }

/-- Method `_sendChunk(chunk, server)` (src/index.ts): acquire the socket, check the
(dead) destroyed guard, bump `_unsentChunks`, call `client.send`; the callback
decrements `_unsentChunks` first and then resolves with the transmitted byte
count or rejects with the error.  A synchronous throw from `client.send`
rejects the promise without ever running the callback, so `_unsentChunks`
stays incremented in that case. -/
def sendChunkM (env : Env) (s : St) (chunk : List Nat) (server : Nat) : SendRes :=
  let s1 := getClientM s
  if s1.client = false then
    { res := .error .socketDestroyed, st := s1, sent := [], trace := [] }
  else
    let s2 := { s1 with unsentChunks := s1.unsentChunks + 1 }
    match env.outcome s2.attempts with
    | .ok =>
        { res := .ok chunk.length,
          st := { s2 with attempts := s2.attempts + 1,
                          unsentChunks := s2.unsentChunks - 1 },
          sent := [⟨chunk, server⟩],
          trace := [.beginChunk, .endChunk] }
    | .cbErr =>
        { res := .error .transport,
          st := { s2 with attempts := s2.attempts + 1,
                          unsentChunks := s2.unsentChunks - 1 },
          sent := [],
          trace := [.beginChunk, .endChunk] }
    | .throwSyn =>
        { res := .error .transport,
          st := { s2 with attempts := s2.attempts + 1 },
          sent := [],
          trace := [.beginChunk] }

/-- JS `buffer.copy(dst, pos, start, stop)` when the source slice fits inside the
destination: overwrite `src.length` bytes of `dst` starting at `pos`. -/
def writeAt (dst : List Nat) (pos : Nat) (src : List Nat) : List Nat :=
  dst.take pos ++ src ++ dst.drop (pos + src.length)

/-- JS `Math.ceil(a / b)` for natural `a` and positive natural `b`. -/
def ceilDiv (a b : Nat) : Nat := (a + b - 1) / b

/-- The per-sequence-number loop of `_sendChunkedStream`: set byte 10 to the
sequence number, copy the payload slice into the reused chunk buffer at
offset 12, send `chunk.slice(0, stop - start + 12)`, abort on the first
rejected chunk, and accumulate the transmitted byte counts. -/
def chunkLoop (env : Env) (buffer : List Nat) (dataSize server : Nat) :
    List Nat → St → List Nat → SendRes
  | [], s, _ => { res := .ok 0, st := s, sent := [], trace := [] }
  | seq :: rest, s, chunkBuf =>
      let buf1 := chunkBuf.set 10 seq
      let payload := (buffer.drop (seq * dataSize)).take dataSize
      let buf2 := writeAt buf1 12 payload
      let dgram := buf2.take (payload.length + 12)
      let r1 := sendChunkM env s dgram server
      match r1.res with
      | .error e =>
          { res := .error e, st := r1.st, sent := r1.sent, trace := r1.trace }
      | .ok n =>
          let r2 := chunkLoop env buffer dataSize server rest r1.st buf2
          { res := r2.res.map (fun m => n + m),
            st := r2.st,
            sent := r1.sent ++ r2.sent,
            trace := r1.trace ++ r2.trace }

/-- Method `_sendChunkedStream(buffer)` (src/index.ts): compute the chunk count from
`dataSize = bufferSize - 12`, fail with the size-exceeded error when more than
128 chunks would be needed (before drawing the message id and before selecting
a server), otherwise draw one random 8-byte id, select one server, prepare the
reused chunk buffer (`Buffer.alloc(bufferSize)` with magic bytes 30 and 15,
the id at bytes 2-9 and the total count at byte 11) and run the chunk loop
over sequence numbers `0..chunkCount-1`. -/
def sendChunkedStreamM (env : Env) (B N : Nat) (s : St) (buffer : List Nat) :
    SendRes :=
  let dataSize := B - 12
  let chunkCount := ceilDiv buffer.length dataSize
  if 128 < chunkCount then
    { res := .error (.sizeExceeded (dataSize * 128)), st := s,
      sent := [], trace := [] }
  else
    let id := env.randomId s.randomUsed
    let s1 := { s with randomUsed := s.randomUsed + 1 }
    let sv := getServerM N s1
    let chunk0 := (((List.replicate B 0).set 0 30).set 1 15).set 11 chunkCount
    let chunk1 := writeAt chunk0 2 (id.take 8)
    chunkLoop env buffer dataSize sv.1 (List.range chunkCount) sv.2 chunk1

/-- The `_destroyIfNeeded` closure installed by `close()`: when close was
requested and both in-flight counters are zero, destroy the client (release
the socket and clear the closure — but only when a socket actually exists). -/
def destroyM (s : St) : St :=
  if s.client then { s with client := false, closing := false } else s

/-- Statement `if (this._destroyIfNeeded) this._destroyIfNeeded();` at the end of a
successful `_sendData`. -/
def runDestroyIfNeeded (s : St) : St :=
  if s.closing ∧ s.unsentChunks = 0 ∧ s.unsentMessages = 0 then destroyM s else s

/-- Method `_sendData(buffer)` (src/index.ts): bump `_unsentMessages`, dispatch to the
single-datagram fast path when the buffer fits the configured size and to the
chunked stream otherwise, decrement `_unsentMessages` in the `finally` step on
every exit path, and run the destroy hook only on the success path (an
exception propagates immediately after the `finally`). -/
def sendDataM (env : Env) (B N : Nat) (s : St) (buffer : List Nat) : SendRes :=
  let s1 := { s with unsentMessages := s.unsentMessages + 1 }
  let inner :=
    if buffer.length ≤ B then
      let sv := getServerM N s1
      sendChunkM env sv.2 buffer sv.1
    else
      sendChunkedStreamM env B N s1 buffer
  let sFin := { inner.st with unsentMessages := inner.st.unsentMessages - 1 }
  match inner.res with
  | .error e =>
      { res := .error e, st := sFin, sent := inner.sent,
        trace := .beginMsg :: inner.trace ++ [.endMsg] }
  | .ok n =>
      { res := .ok n, st := runDestroyIfNeeded sFin, sent := inner.sent,
        trace := .beginMsg :: inner.trace ++ [.endMsg] }

/-- The `deflate` configuration option. -/
inductive DeflateMode where
  | optimal | always | never
deriving DecidableEq, Repr

/-- Method `send(payload)` (src/index.ts) on the serialized record bytes `data`:
skip compression when the mode is `never` or when the mode is `optimal` and
the record already fits one datagram; otherwise deflate first. -/
def sendM (env : Env) (mode : DeflateMode) (B N : Nat) (s : St)
    (data : List Nat) : SendRes :=
  if mode = .never ∨ (mode = .optimal ∧ data.length ≤ B) then
    sendDataM env B N s data
  else
    sendDataM env B N s (env.deflate data)

/-- Result of a safe-mode (`disablePromiseRejection = true`) `_log` call:
the resolved value (`some bytes` on success, `none` standing for the sentinel
`false`), and the number of times the `err` event was emitted to the
registered error observer during the call. -/
structure LogRes where
  result : Option Nat
  errEvents : Nat
  st : St
  sent : List Datagram
deriving Repr

/-- Method `_log(..., disablePromiseRejection = true)` as used by every named
severity method: `send(payload).then(bytes => bytes, e => { emit('err', e);
return false })`.  The returned promise settles by construction — a transport
failure is converted into the sentinel after emitting exactly one `err`
event. -/
def logSafeM (env : Env) (mode : DeflateMode) (B N : Nat) (s : St)
    (data : List Nat) : LogRes :=
  let r := sendM env mode B N s data
  match r.res with
  | .ok n => { result := some n, errEvents := 0, st := r.st, sent := r.sent }
  | .error _ => { result := none, errEvents := 1, st := r.st, sent := r.sent }

/-- A sequence of independent `send` calls awaited one after the other,
collecting every transmitted datagram in order. -/
def sendManyM (env : Env) (mode : DeflateMode) (B N : Nat) :
    St → List (List Nat) → St × List Datagram
  | s, [] => (s, [])
  | s, b :: rest =>
      let r := sendM env mode B N s b
      let r2 := sendManyM env mode B N r.st rest
      (r2.1, r.sent ++ r2.2)

/-- How a `close()` call settles. -/
inductive CloseOutcome where
  | rejectedAlreadyClosing
  | resolved
  | pending
deriving DecidableEq, Repr

/-- Method `close()` (src/index.ts): reject immediately when `_destroyIfNeeded` is
already installed; otherwise install it and run it on the next tick — the
promise resolves right away when both in-flight counters are zero (destroying
the client), and stays pending otherwise (to be resolved by the destroy hook
of a later `_sendData`). -/
def closeCallM (s : St) : CloseOutcome × St :=
  if s.closing then
    (.rejectedAlreadyClosing, s)
  else
    let s1 := { s with closing := true }
    if s1.unsentChunks = 0 ∧ s1.unsentMessages = 0 then
      (.resolved, destroyM s1)
    else
      (.pending, s1)

/-- Contribution of a counter event to `_unsentMessages`. -/
def msgDelta : Ev → Int
  | .beginMsg => 1
  | .endMsg => -1
  | _ => 0

/-- Contribution of a counter event to `_unsentChunks`. -/
def chunkDelta : Ev → Int
  | .beginChunk => 1
  | .endChunk => -1
  | _ => 0

/-- Net counter movement over an event sequence. -/
def evSum (f : Ev → Int) (tr : List Ev) : Int := (tr.map f).sum

/-- Exactly `k` balanced begin/end chunk pairs in sequence — the event shape of `k`
chunk transmissions that all reported back through the socket callback. -/
def pairTr : Nat → List Ev
  | 0 => []
  | k + 1 => .beginChunk :: .endChunk :: pairTr k

/-- Whether a datagram starts with the chunked-GELF magic marker `0x1E 0x0F`. -/
def hasChunkMagic (b : List Nat) : Bool := decide (b.take 2 = [30, 15])

/-- A deterministic environment whose random ids are `[1,…,8]` and whose
transport always succeeds. -/
def envAllOk : Env := ⟨fun _ => [1, 2, 3, 4, 5, 6, 7, 8], fun _ => .ok, fun d => d⟩

/-- An environment whose socket `send` always throws synchronously, exactly as
the repository's own tests stub it (`send = () => { throw ... }`). -/
def envThrow : Env := ⟨fun _ => [1, 2, 3, 4, 5, 6, 7, 8], fun _ => .throwSyn, fun d => d⟩

/-- A fresh client state: nothing sent yet, no socket, no close requested.
This is also the state right after a completed `close()` released the socket
(the `Closed` state). -/
def stFresh : St := ⟨0, 0, 0, false, false, 0, 0⟩

/-- An environment whose socket `send` always reports an error through its
callback. -/
def envCbErr : Env := ⟨fun _ => [1, 2, 3, 4, 5, 6, 7, 8], fun _ => .cbErr, fun d => d⟩

/-- An idle client state that holds a live socket (some sends completed). -/
def stSock : St := ⟨0, 0, 0, true, false, 0, 0⟩

/-- A client state with a pending close (the `_destroyIfNeeded` closure is
installed) and no in-flight work — the state left behind by a `close()` on a
client that never created a socket. -/
def stPendingClose : St := ⟨0, 0, 0, false, true, 0, 0⟩

/-! ### Association-list lemmas (JS object semantics) -/

lemma objGet_set_self (o : List (String × Val)) (k : String) (v : Val) :
    objGet (objSet o k v) k = some v := by
  induction o with
  | nil => simp [objSet, objGet]
  | cons kv rest ih =>
      by_cases h : kv.1 = k
      · simp [objSet, h, objGet]
      · simp [objSet, h, objGet, ih]

lemma objGet_set_ne (o : List (String × Val)) (k1 k : String) (v : Val)
    (h : k1 ≠ k) : objGet (objSet o k1 v) k = objGet o k := by
  induction o with
  | nil => simp [objSet, objGet, h]
  | cons kv rest ih =>
      by_cases h2 : kv.1 = k1
      · simp [objSet, h2, objGet, h]
      · simp [objSet, h2, objGet, ih]

lemma objGet_del_self (o : List (String × Val)) (k : String) :
    objGet (objDel o k) k = none := by
  induction o with
  | nil => simp [objDel, objGet]
  | cons kv rest ih =>
      by_cases h : kv.1 = k
      · simpa [objDel, h] using ih
      · simpa [objDel, h, objGet] using ih

lemma objGet_del_ne (o : List (String × Val)) (k1 k : String) (h : k1 ≠ k) :
    objGet (objDel o k1) k = objGet o k := by
  induction o with
  | nil => rfl
  | cons kv rest ih =>
      by_cases h2 : kv.1 = k1
      · have hne : kv.1 ≠ k := by rw [h2]; exact h
        simpa [objDel, List.filter_cons, h2, objGet, hne, h] using ih
      · by_cases h3 : kv.1 = k
        · simp [objDel, List.filter_cons, h2, objGet, h3, Ne.symm h]
        · simpa [objDel, List.filter_cons, h2, objGet, h3] using ih

lemma objGet_eq_none_of_not_mem (o : List (String × Val)) (k : String)
    (h : k ∉ o.map Prod.fst) : objGet o k = none := by
  induction o with
  | nil => rfl
  | cons kv rest ih =>
      simp only [List.map_cons, List.mem_cons, not_or] at h
      have h1 : kv.1 ≠ k := fun hc => h.1 hc.symm
      simp [objGet, h1, ih h.2]

/-- Prepending the underscore is injective on field names. -/
lemma underscore_inj {a b : String} (h : "_" ++ a = "_" ++ b) : a = b := by
  have hd := congrArg String.data h
  rw [String.data_append, String.data_append] at hd
  simp only [show ("_" : String).data = ['_'] from rfl, List.cons_append,
    List.nil_append, List.cons.injEq] at hd
  exact String.ext hd.2

/-- An underscored name never equals a name that does not begin with `_`. -/
lemma underscore_ne {a t : String} (ht : t.data.head? ≠ some '_') :
    "_" ++ a ≠ t := by
  intro h
  apply ht
  rw [← h, String.data_append]
  rfl

lemma objGet_foldSet_of_ne (l : List (String × Val)) (p : List (String × Val))
    (key : String) (h : ∀ kv ∈ l, "_" ++ kv.1 ≠ key) :
    objGet (l.foldl (fun acc kv => objSet acc ("_" ++ kv.1) kv.2) p) key
      = objGet p key := by
  induction l generalizing p with
  | nil => rfl
  | cons kv rest ih =>
      rw [List.foldl_cons, ih _ (fun kv2 hm => h kv2 (List.mem_cons_of_mem _ hm)),
        objGet_set_ne _ _ _ _ (h kv (List.mem_cons_self _ _))]

lemma objGet_foldSet_of_mem (l : List (String × Val)) (p : List (String × Val))
    (k : String) (v : Val) (hmem : (k, v) ∈ l) (hnd : (l.map Prod.fst).Nodup) :
    objGet (l.foldl (fun acc kv => objSet acc ("_" ++ kv.1) kv.2) p) ("_" ++ k)
      = some v := by
  induction l generalizing p with
  | nil => cases hmem
  | cons kv rest ih =>
      rw [List.foldl_cons]
      rcases List.mem_cons.mp hmem with heq | hmem2
      · subst heq
        have hk : ∀ kv2 ∈ rest, "_" ++ kv2.1 ≠ "_" ++ k := by
          intro kv2 hm hc
          have : kv2.1 = k := underscore_inj hc
          have hnotin : k ∉ rest.map Prod.fst := by
            simpa using (List.nodup_cons.mp hnd).1
          exact hnotin (this ▸ List.mem_map_of_mem Prod.fst hm)
        rw [objGet_foldSet_of_ne _ _ _ hk, objGet_set_self]
      · exact ih _ hmem2 (List.nodup_cons.mp hnd).2

lemma objGet_applyReservedOverrides_ne (p : List (String × Val))
    (m : List (String × Val)) (key : String) (h : key ∉ reservedMetaKeys) :
    objGet (applyReservedOverrides p m) key = objGet p key := by
  simp only [reservedMetaKeys, List.mem_cons, List.not_mem_nil, or_false,
    not_or] at h
  obtain ⟨h1, h2, h3, h4, h5⟩ := h
  unfold applyReservedOverrides
  repeat' split
  all_goals simp [objGet_set_ne, Ne.symm h1, Ne.symm h2, Ne.symm h3,
    Ne.symm h4, Ne.symm h5]

lemma objGet_base_underscore (hostname facility : String) (ts lv : Val)
    (msg k : String) :
    objGet (objSet [("version", Val.str "1.1"), ("timestamp", ts),
        ("host", Val.str hostname), ("facility", Val.str facility),
        ("level", lv)] "short_message" (Val.str msg)) ("_" ++ k) = none := by
  have h1 : "_" ++ k ≠ "version" := underscore_ne (by decide)
  have h2 : "_" ++ k ≠ "timestamp" := underscore_ne (by decide)
  have h3 : "_" ++ k ≠ "host" := underscore_ne (by decide)
  have h4 : "_" ++ k ≠ "facility" := underscore_ne (by decide)
  have h5 : "_" ++ k ≠ "level" := underscore_ne (by decide)
  have h6 : "_" ++ k ≠ "short_message" := underscore_ne (by decide)
  rw [objGet_set_ne _ _ _ _ (Ne.symm h6)]
  simp [objGet, Ne.symm h1, Ne.symm h2, Ne.symm h3, Ne.symm h4, Ne.symm h5]

lemma underscore_not_reserved (k : String) :
    ("_" ++ k) ∉ reservedMetaKeys := by
  simp only [reservedMetaKeys, List.mem_cons, List.not_mem_nil, or_false,
    not_or]
  exact ⟨underscore_ne (by decide), underscore_ne (by decide),
    underscore_ne (by decide), underscore_ne (by decide),
    underscore_ne (by decide)⟩

lemma buildPayload_some_eq (hostname facility : String) (nowMs : Int)
    (msg : String) (m : List (String × Val)) (lvl : Option Nat) :
    buildPayload hostname facility nowMs msg (some m) lvl
      = applyIdRule (addAdditionalFields (applyReservedOverrides
          (objSet [("version", Val.str "1.1"),
            ("timestamp", if truthy (match objGet m "timestamp" with
                | some v => v
                | none => Val.undef)
              then (match objGet m "timestamp" with
                | some v => v
                | none => Val.undef)
              else Val.num (nowMs / 1000)),
            ("host", Val.str hostname),
            ("facility", Val.str facility),
            ("level", Val.num (match lvl with
              | none => 6
              | some l => if l = 0 then 6 else (l : Int)))]
            "short_message" (Val.str msg)) m) m) := rfl

lemma objGet_foldSet_inv (l : List (String × Val)) (acc : List (String × Val))
    (k : String) (v : Val)
    (h : objGet (l.foldl (fun acc kv => objSet acc ("_" ++ kv.1) kv.2) acc)
        ("_" ++ k) = some v) :
    (k, v) ∈ l ∨ ((∀ kv ∈ l, kv.1 ≠ k) ∧ objGet acc ("_" ++ k) = some v) := by
  induction l generalizing acc with
  | nil => exact Or.inr ⟨fun kv hkv => absurd hkv (List.not_mem_nil kv), h⟩
  | cons kv1 rest ih =>
      rw [List.foldl_cons] at h
      rcases ih _ h with hmem | ⟨hni, hacc⟩
      · exact Or.inl (List.mem_cons_of_mem _ hmem)
      · by_cases hk : kv1.1 = k
        · left
          subst hk
          rw [objGet_set_self] at hacc
          obtain rfl := Option.some.inj hacc
          exact List.mem_cons_self _ _
        · right
          refine ⟨?_, ?_⟩
          · intro kv2 hkv2
            rcases List.mem_cons.mp hkv2 with rfl | h2
            · exact hk
            · exact hni kv2 h2
          · rw [objGet_set_ne _ _ _ _
              (fun hc => hk (underscore_inj hc))] at hacc
            exact hacc

lemma additional_fields_spec (q : List (String × Val)) (m : List (String × Val))
    (hq : ∀ k : String, objGet q ("_" ++ k) = none)
    (hnd : (m.map Prod.fst).Nodup) :
    (∀ kv ∈ m, kv.1 ∉ reservedMetaKeys → kv.1 ≠ "id" →
        (kv.1 = "_id" → ∀ w : Val, ("id", w) ∈ m → truthy w = false) →
        objGet (applyIdRule (addAdditionalFields q m)) ("_" ++ kv.1) = some kv.2)
    ∧ (∀ w : Val, ("id", w) ∈ m → truthy w = true →
        objGet (applyIdRule (addAdditionalFields q m)) "__id" = some w
        ∧ objGet (applyIdRule (addAdditionalFields q m)) "_id" = none)
    ∧ (∀ w : Val, ("id", w) ∈ m → truthy w = false →
        objGet (applyIdRule (addAdditionalFields q m)) "_id" = some w) := by
  have e1 : ("_id" : String) = "_" ++ "id" := rfl
  have e2 : ("__id" : String) = "_" ++ "_id" := rfl
  have hfilterNd :
      ((m.filter fun kv => ¬ reservedMetaKeys.contains kv.1).map Prod.fst).Nodup :=
    hnd.sublist ((List.filter_sublist m).map Prod.fst)
  have hmem_filter : ∀ kv ∈ m, kv.1 ∉ reservedMetaKeys →
      kv ∈ m.filter fun kv => ¬ reservedMetaKeys.contains kv.1 := by
    intro kv hm hr
    rw [List.mem_filter]
    refine ⟨hm, ?_⟩
    simpa using hr
  have hget : ∀ kv ∈ m, kv.1 ∉ reservedMetaKeys →
      objGet (addAdditionalFields q m) ("_" ++ kv.1) = some kv.2 := by
    intro kv hm hr
    exact objGet_foldSet_of_mem _ _ kv.1 kv.2 (hmem_filter kv hm hr) hfilterNd
  have hinv : ∀ w : Val, objGet (addAdditionalFields q m) "_id" = some w →
      ("id", w) ∈ m := by
    intro w hw
    rw [e1] at hw
    rcases objGet_foldSet_inv _ _ _ _ hw with hmem | ⟨-, hacc⟩
    · exact List.mem_of_mem_filter hmem
    · rw [hq "id"] at hacc
      cases hacc
  refine ⟨?_, ?_, ?_⟩
  · intro kv hm hr hkid hguard
    have hne1 : ("_id" : String) ≠ "_" ++ kv.1 := by
      rw [e1]
      intro hc
      exact hkid (underscore_inj hc).symm
    by_cases hid : kv.1 = "_id"
    · rcases hcase : objGet (addAdditionalFields q m) "_id" with _ | w
      · simp only [applyIdRule, hcase]
        exact hget kv hm hr
      · have hfw : truthy w = false := hguard hid w (hinv w hcase)
        simp only [applyIdRule, hcase, hfw, Bool.false_eq_true, if_neg,
          not_false_eq_true]
        exact hget kv hm hr
    · have hne2 : ("__id" : String) ≠ "_" ++ kv.1 := by
        rw [e2]
        intro hc
        exact hid (underscore_inj hc).symm
      rcases hcase : objGet (addAdditionalFields q m) "_id" with _ | w
      · simp only [applyIdRule, hcase]
        exact hget kv hm hr
      · by_cases ht : truthy w
        · simp only [applyIdRule, hcase, ht, if_pos]
          rw [objGet_del_ne _ _ _ hne1, objGet_set_ne _ _ _ _ hne2]
          exact hget kv hm hr
        · simp only [applyIdRule, hcase, ht, if_neg, Bool.false_eq_true,
            not_false_eq_true]
          exact hget kv hm hr
  · intro w hw ht
    have hidres : ("id" : String) ∉ reservedMetaKeys := by decide
    have hcase : objGet (addAdditionalFields q m) "_id" = some w := by
      rw [e1]
      exact hget ("id", w) hw hidres
    constructor
    · simp only [applyIdRule, hcase, ht, if_pos]
      rw [objGet_del_ne _ _ _ (by decide), objGet_set_self]
    · simp only [applyIdRule, hcase, ht, if_pos]
      exact objGet_del_self _ _
  · intro w hw ht
    have hidres : ("id" : String) ∉ reservedMetaKeys := by decide
    have hcase : objGet (addAdditionalFields q m) "_id" = some w := by
      rw [e1]
      exact hget ("id", w) hw hidres
    simp only [applyIdRule, hcase, ht, Bool.false_eq_true, if_neg,
      not_false_eq_true]

/-! ### Claim C8 -/

/-- C8: the claim states that each named severity method sends with its fixed
numeric level (`emergency` = 0) and that a caller-supplied `meta.level`
overrides it.  The code evaluates `level || GelfLevelEnum.INFO` and
`if (level) payload.level = level`, and the JS number `0` is falsy, so the
claim fails exactly at level 0: `emergency` (its own doc comment says
`@level 0`) builds a payload with level 6 (INFO), and a caller-supplied
`meta.level = 0` cannot override the method level (here `error` = 3 stays 3).
This theorem evaluates the embedded payload builder at these failing
inputs. -/
theorem C8_level_zero_code_bug :
    objGet (buildPayload "host" "fac" 1000 "msg" none
        (some (methodLevel .emergency))) "level" = some (Val.num 6)
    ∧ objGet (buildPayload "host" "fac" 1000 "msg"
        (some [("level", Val.num 0)]) (some (methodLevel .error))) "level"
      = some (Val.num 3) := by
  constructor <;> rfl

/-! ### Claim C10 -/

/-- C10 counterexample: the claim states that an additional `meta` field named
`id` is **always** renamed to `__id`.  The code guards the rename with the JS
truthiness test `if (payload._id)`, so the falsy value `0` is not renamed: the
payload built from `meta = { id: 0 }` carries `_id = 0` and no `__id`. -/
theorem C10_counterexample :
    objGet (buildPayload "h" "f" 1000 "m" (some [("id", Val.num 0)]) none)
        "_id" = some (Val.num 0)
    ∧ objGet (buildPayload "h" "f" 1000 "m" (some [("id", Val.num 0)]) none)
        "__id" = none := by
  constructor <;> rfl

/-- C10 (amended): for every caller-supplied metadata object (its field names
are necessarily distinct, as in any JS object), each additional non-reserved
field appears in the built payload under its name prefixed with one
underscore, with two exceptions driven by the truthiness-guarded rename
`if (payload._id)`: a field named `id` with a truthy value is silently
renamed to `__id` (and `_id` is absent from the payload), while a falsy `id`
(`0`, `""`, `undefined`) is sent as `_id` unchanged; and when a truthy `id`
is present, the renamed value overwrites the payload entry `__id`, so a
metadata field literally named `_id` (whose prefixed name is `__id`) is
silently clobbered in exactly that case — in every other case, including
`_id` alongside a falsy or absent `id`, each prefixed field carries its own
value. -/
theorem C10_amended (hostname facility : String) (nowMs : Int) (msg : String)
    (m : List (String × Val)) (lvl : Option Nat)
    (hnd : (m.map Prod.fst).Nodup) :
    (∀ kv ∈ m, kv.1 ∉ reservedMetaKeys → kv.1 ≠ "id" →
        (kv.1 = "_id" → ∀ w : Val, ("id", w) ∈ m → truthy w = false) →
        objGet (buildPayload hostname facility nowMs msg (some m) lvl)
          ("_" ++ kv.1) = some kv.2)
    ∧ (∀ w : Val, ("id", w) ∈ m → truthy w = true →
        objGet (buildPayload hostname facility nowMs msg (some m) lvl)
            "__id" = some w
        ∧ objGet (buildPayload hostname facility nowMs msg (some m) lvl)
            "_id" = none)
    ∧ (∀ w : Val, ("id", w) ∈ m → truthy w = false →
        objGet (buildPayload hostname facility nowMs msg (some m) lvl)
          "_id" = some w) := by
  rw [buildPayload_some_eq]
  refine additional_fields_spec _ m (fun k => ?_) hnd
  rw [objGet_applyReservedOverrides_ne _ _ _ (underscore_not_reserved k)]
  exact objGet_base_underscore _ _ _ _ _ _

/-- C10 witness: the amended statement applied to the concrete metadata
`{ cool: "beans", _id: 5, id: 7 }` — `cool` is prefixed, the truthy `id` is
renamed to `__id` (clobbering the `_id` field's prefixed entry) and `_id` is
absent — and to `{ id: 0 }`, whose falsy `id` goes out as `_id`
unchanged. -/
theorem C10_witness :
    objGet (buildPayload "h" "f" 1000 "m"
        (some [("cool", Val.str "beans"), ("_id", Val.num 5),
          ("id", Val.num 7)]) none)
      ("_" ++ "cool") = some (Val.str "beans")
    ∧ objGet (buildPayload "h" "f" 1000 "m"
        (some [("cool", Val.str "beans"), ("_id", Val.num 5),
          ("id", Val.num 7)]) none)
      "__id" = some (Val.num 7)
    ∧ objGet (buildPayload "h" "f" 1000 "m"
        (some [("cool", Val.str "beans"), ("_id", Val.num 5),
          ("id", Val.num 7)]) none)
      "_id" = none
    ∧ objGet (buildPayload "h" "f" 1000 "m" (some [("id", Val.num 0)]) none)
      "_id" = some (Val.num 0) := by
  have h := C10_amended "h" "f" 1000 "m"
    [("cool", Val.str "beans"), ("_id", Val.num 5), ("id", Val.num 7)] none
    (by decide)
  have h0 := C10_amended "h" "f" 1000 "m" [("id", Val.num 0)] none (by decide)
  refine ⟨h.1 ("cool", Val.str "beans") (by decide) (by decide) (by decide)
      (fun hc => absurd hc (by decide)), ?_, ?_, ?_⟩
  · exact (h.2.1 (Val.num 7) (by decide) (by decide)).1
  · exact (h.2.1 (Val.num 7) (by decide) (by decide)).2
  · exact h0.2.2 (Val.num 0) (by decide) (by decide)

/-! ### Claim C5 -/

/-- C5 counterexample: the claim states that **every** subsequent `close()`
call, also after the first close has completed, fails with the already-closing
error.  On a client whose completed close released an actual socket
(`destroy()` resets `_destroyIfNeeded` inside `if (this.client)`), a second
`close()` resolves instead of rejecting: starting from the idle state with a
live socket, the first close resolves, and so does the second. -/
theorem C5_counterexample :
    (closeCallM stSock).1 = CloseOutcome.resolved
    ∧ (closeCallM (closeCallM stSock).2).1 = CloseOutcome.resolved
    ∧ CloseOutcome.resolved ≠ CloseOutcome.rejectedAlreadyClosing := by
  refine ⟨rfl, rfl, by decide⟩

/-! ### Claim C7 -/

/-- C7 counterexample: the claim states that once the client is `Closed`
(socket released), every attempted send fails with a resource-destroyed error,
no new socket is acquired and no datagram is transmitted.  In the code
`getClient()` lazily creates a fresh socket whenever `this.client` is unset,
so a send attempted in the closed state (here `stFresh`, which has
`client = false`) succeeds, acquires a new socket and transmits the
datagram. -/
theorem C7_counterexample :
    stFresh.client = false
    ∧ (sendChunkM envAllOk stFresh [99] 0).res = .ok 1
    ∧ (sendChunkM envAllOk stFresh [99] 0).st.client = true
    ∧ (sendChunkM envAllOk stFresh [99] 0).sent = [⟨[99], 0⟩] := by
  refine ⟨rfl, rfl, rfl, rfl⟩

/-- C7 (amended): a send attempted after the client reached the `Closed`
state does not fail with a resource-destroyed error: `getClient()` transparently
acquires a fresh socket, and with a healthy transport the datagram is
transmitted.  The `Socket was already destroyed` rejection branch of
`_sendChunk` is unreachable for every state, because `getClient()` always
returns a socket. -/
theorem C7_amended (env : Env) (s : St) (chunk : List Nat) (server : Nat)
    (hclosed : s.client = false) :
    (sendChunkM env s chunk server).st.client = true
    ∧ (env.outcome s.attempts = .ok →
        (sendChunkM env s chunk server).res = .ok chunk.length
        ∧ (sendChunkM env s chunk server).sent = [⟨chunk, server⟩])
    ∧ (∀ (s2 : St) (c2 : List Nat) (sv : Nat),
        (sendChunkM env s2 c2 sv).res ≠ .error .socketDestroyed) := by
  refine ⟨?_, ?_, ?_⟩
  · simp only [sendChunkM, getClientM]
    rcases env.outcome s.attempts with _ | _ | _ <;> rfl
  · intro hok
    simp [sendChunkM, getClientM, hok]
  · intro s2 c2 sv
    simp only [sendChunkM, getClientM]
    rcases env.outcome s2.attempts with _ | _ | _ <;> simp

/-- C7 witness: the amended statement applied in the concrete closed state
with an always-succeeding transport. -/
theorem C7_witness :
    (sendChunkM envAllOk stFresh [7, 7] 1).st.client = true
    ∧ (sendChunkM envAllOk stFresh [7, 7] 1).res = .ok 2
    ∧ (sendChunkM envAllOk stFresh [7, 7] 1).sent = [⟨[7, 7], 1⟩] := by
  have h := C7_amended envAllOk stFresh [7, 7] 1 rfl
  exact ⟨h.1, (h.2.1 rfl).1, (h.2.1 rfl).2⟩

/-! ### Single-datagram path -/

lemma sendChunkM_ok (env : Env) (s : St) (chunk : List Nat) (server : Nat)
    (h : env.outcome s.attempts = .ok) :
    sendChunkM env s chunk server =
      { res := .ok chunk.length,
        st := { s with client := true, attempts := s.attempts + 1 },
        sent := [⟨chunk, server⟩],
        trace := [.beginChunk, .endChunk] } := by
  simp [sendChunkM, getClientM, h]

lemma runDestroyIfNeeded_fields (s : St) :
    (runDestroyIfNeeded s).callCount = s.callCount
    ∧ (runDestroyIfNeeded s).randomUsed = s.randomUsed
    ∧ (runDestroyIfNeeded s).attempts = s.attempts
    ∧ (runDestroyIfNeeded s).unsentMessages = s.unsentMessages
    ∧ (runDestroyIfNeeded s).unsentChunks = s.unsentChunks := by
  simp only [runDestroyIfNeeded, destroyM]
  repeat' split
  all_goals simp

lemma sendM_single (env : Env) (mode : DeflateMode) (B N : Nat) (s : St)
    (data : List Nat) (hlen : data.length ≤ B)
    (hmode : mode = .optimal ∨ mode = .never)
    (hok : env.outcome s.attempts = .ok) :
    sendM env mode B N s data =
      { res := .ok data.length,
        st := runDestroyIfNeeded
          { s with
            client := true
            attempts := s.attempts + 1
            callCount := s.callCount + 1 },
        sent := [⟨data, s.callCount % N⟩],
        trace := [.beginMsg, .beginChunk, .endChunk, .endMsg] } := by
  have hguard : mode = DeflateMode.never
      ∨ (mode = DeflateMode.optimal ∧ data.length ≤ B) := by
    rcases hmode with h | h
    · exact Or.inr ⟨h, hlen⟩
    · exact Or.inl h
  rw [sendM, if_pos hguard, sendDataM]
  simp only [getServerM, hlen, if_pos]
  rw [sendChunkM_ok env
    { s with callCount := s.callCount + 1,
             unsentMessages := s.unsentMessages + 1 }
    data (s.callCount % N) hok]
  simp

/-! ### Claim C2 -/

/-- C2: for every payload whose serialized byte sequence `data` fits the
configured buffer size, with compression mode `optimal` or `never` and a
healthy transport, `send` transmits exactly one datagram that is byte-identical
to the uncompressed serialized record, with no chunk header prepended: the
datagram does not carry the `0x1E 0x0F` magic marker in its first two bytes
(a serialized JSON record starts with the opening brace, byte 123). -/
theorem C2_single_datagram (env : Env) (mode : DeflateMode) (B N : Nat)
    (s : St) (data : List Nat) (hlen : data.length ≤ B)
    (hmode : mode = .optimal ∨ mode = .never)
    (hok : env.outcome s.attempts = .ok)
    (hjson : data.head? = some 123) :
    (sendM env mode B N s data).res = .ok data.length
    ∧ (sendM env mode B N s data).sent = [⟨data, s.callCount % N⟩]
    ∧ ∀ d ∈ (sendM env mode B N s data).sent,
        d.bytes = data ∧ hasChunkMagic d.bytes = false := by
  rw [sendM_single env mode B N s data hlen hmode hok]
  refine ⟨rfl, rfl, ?_⟩
  intro d hd
  simp only [List.mem_singleton] at hd
  subst hd
  refine ⟨rfl, ?_⟩
  rcases data with _ | ⟨b, t⟩
  · cases hjson
  · simp only [List.head?] at hjson
    cases hjson
    simp [hasChunkMagic, List.take]

/-- C2 witness: the theorem applied to the concrete serialized record
`[123, 34, 125]` with buffer size 1400, two servers and mode `optimal`. -/
theorem C2_witness :
    (sendM envAllOk .optimal 1400 2 stFresh [123, 34, 125]).res = .ok 3
    ∧ (sendM envAllOk .optimal 1400 2 stFresh [123, 34, 125]).sent
      = [⟨[123, 34, 125], 0⟩]
    ∧ ∀ d ∈ (sendM envAllOk .optimal 1400 2 stFresh [123, 34, 125]).sent,
        d.bytes = [123, 34, 125] ∧ hasChunkMagic d.bytes = false := by
  exact C2_single_datagram envAllOk .optimal 1400 2 stFresh [123, 34, 125]
    (by decide) (Or.inl rfl) rfl rfl

/-! ### Byte accounting on the success path -/

lemma sendChunkM_ok_bytes (env : Env) (s : St) (chunk : List Nat)
    (server : Nat) (n : Nat)
    (h : (sendChunkM env s chunk server).res = .ok n) :
    n = ((sendChunkM env s chunk server).sent.map
        (fun d => d.bytes.length)).sum := by
  rcases h2 : env.outcome s.attempts with _ | _ | _ <;>
    simp [sendChunkM, getClientM, h2] at h ⊢ <;> omega

lemma exceptMap_eq_ok {α β ε : Type} {f : α → β} {x : Except ε α} {b : β} :
    x.map f = .ok b ↔ ∃ a, x = .ok a ∧ b = f a := by
  cases x <;> simp [Except.map, eq_comm]

lemma chunkLoop_ok_bytes (env : Env) (buffer : List Nat)
    (dataSize server : Nat) :
    ∀ (seqs : List Nat) (s : St) (chunkBuf : List Nat) (n : Nat),
      (chunkLoop env buffer dataSize server seqs s chunkBuf).res = .ok n →
      n = ((chunkLoop env buffer dataSize server seqs s chunkBuf).sent.map
          (fun d => d.bytes.length)).sum := by
  intro seqs
  induction seqs with
  | nil =>
      intro s cb n h
      simp only [chunkLoop] at h ⊢
      cases h
      rfl
  | cons seq rest ih =>
      intro s cb n h
      simp only [chunkLoop] at h ⊢
      split at h
      next e heq =>
        simp at h
      next n1 heq =>
        dsimp only at h ⊢
        obtain ⟨m, h3, hn⟩ := exceptMap_eq_ok.mp h
        have hb1 := sendChunkM_ok_bytes env s _ server n1 heq
        have hb2 := ih _ _ m h3
        subst hn
        rw [List.map_append, List.sum_append, ← hb1, ← hb2]

lemma sendChunkedStreamM_ok_bytes (env : Env) (B N : Nat) (s : St)
    (buffer : List Nat) (n : Nat)
    (h : (sendChunkedStreamM env B N s buffer).res = .ok n) :
    n = ((sendChunkedStreamM env B N s buffer).sent.map
        (fun d => d.bytes.length)).sum := by
  by_cases hc : 128 < ceilDiv buffer.length (B - 12)
  · simp [sendChunkedStreamM, hc] at h
  · simp only [sendChunkedStreamM, hc, if_neg, not_false_eq_true] at h ⊢
    exact chunkLoop_ok_bytes env buffer (B - 12) _ _ _ _ n h

lemma sendDataM_ok_bytes (env : Env) (B N : Nat) (s : St)
    (buffer : List Nat) (n : Nat)
    (h : (sendDataM env B N s buffer).res = .ok n) :
    n = ((sendDataM env B N s buffer).sent.map
        (fun d => d.bytes.length)).sum := by
  by_cases hfit : buffer.length ≤ B
  · simp only [sendDataM, hfit, if_pos] at h ⊢
    split at h
    next e heq => simp at h
    next m heq =>
      cases h
      dsimp only
      exact sendChunkM_ok_bytes env _ buffer _ _ heq
  · simp only [sendDataM, hfit, if_neg, not_false_eq_true] at h ⊢
    split at h
    next e heq => simp at h
    next m heq =>
      cases h
      dsimp only
      exact sendChunkedStreamM_ok_bytes env B N _ buffer _ heq

lemma sendM_ok_bytes (env : Env) (mode : DeflateMode) (B N : Nat) (s : St)
    (data : List Nat) (n : Nat)
    (h : (sendM env mode B N s data).res = .ok n) :
    n = ((sendM env mode B N s data).sent.map
        (fun d => d.bytes.length)).sum := by
  by_cases hg : mode = DeflateMode.never
      ∨ (mode = DeflateMode.optimal ∧ data.length ≤ B)
  · simp only [sendM, hg, if_pos] at h ⊢
    exact sendDataM_ok_bytes env B N s data n h
  · simp only [sendM, hg, if_neg, not_false_eq_true] at h ⊢
    exact sendDataM_ok_bytes env B N s (env.deflate data) n h

/-! ### Claim C4 -/

/-- C4: every named severity method calls `_log` with
`disablePromiseRejection = true`, so the returned promise never rejects even
when every transport send fails: it either resolves to the sentinel `false`
(modelled as `none`) after emitting the `err` event to the registered error
observer exactly once, or it resolves to the number of bytes transmitted (the
sum of the lengths of the datagrams handed to the network) with no error
event.  The statement quantifies over every environment, including those whose
transport always fails. -/
theorem C4_safe_methods_never_reject (env : Env) (mode : DeflateMode)
    (B N : Nat) (s : St) (data : List Nat) :
    ((logSafeM env mode B N s data).result = none
      ∧ (logSafeM env mode B N s data).errEvents = 1)
    ∨ (∃ n, (logSafeM env mode B N s data).result = some n
        ∧ (logSafeM env mode B N s data).errEvents = 0
        ∧ n = ((logSafeM env mode B N s data).sent.map
            (fun d => d.bytes.length)).sum) := by
  rcases h : (sendM env mode B N s data).res with e | n
  · left
    constructor <;> simp [logSafeM, h]
  · right
    refine ⟨n, by simp [logSafeM, h], by simp [logSafeM, h], ?_⟩
    have := sendM_ok_bytes env mode B N s data n h
    simpa [logSafeM, h] using this

/-! ### List surgery and arithmetic for the chunked stream -/

lemma set_append_len (pre : List Nat) (a v : Nat) (post : List Nat)
    (n : Nat) (h : pre.length = n) :
    (pre ++ a :: post).set n v = pre ++ v :: post := by
  subst h
  induction pre with
  | nil => rfl
  | cons b t ih => simpa [List.set_cons_succ] using ih

lemma writeAt_append (pre post src : List Nat) (n : Nat)
    (h : pre.length = n) :
    writeAt (pre ++ post) n src = pre ++ src ++ post.drop src.length := by
  subst h
  rw [writeAt, List.take_left, List.drop_append]

lemma ceilDiv_le_iff (a b c : Nat) (hb : 0 < b) :
    ceilDiv a b ≤ c ↔ a ≤ c * b := by
  have h := Nat.div_lt_iff_lt_mul (x := a + b - 1) (y := c + 1) hb
  have hcb : (c + 1) * b = c * b + b := by ring
  constructor
  · intro hle
    have h2 := h.mp (Nat.lt_succ_of_le hle)
    omega
  · intro hle
    have h2 : a + b - 1 < (c + 1) * b := by omega
    rw [ceilDiv]
    exact Nat.lt_succ_iff.mp (h.mpr h2)

lemma le_ceilDiv_mul (a b : Nat) (hb : 0 < b) : a ≤ ceilDiv a b * b :=
  (ceilDiv_le_iff a b (ceilDiv a b) hb).mp le_rfl

lemma ceilDiv_gt_imp (a b : Nat) (hb : 0 < b) (h : 128 < ceilDiv a b) :
    128 * b < a := by
  by_contra hc
  push_neg at hc
  have := (ceilDiv_le_iff a b 128 hb).mpr hc
  omega

lemma flatten_slices (buffer : List Nat) (ds : Nat) :
    ∀ (m j : Nat),
      ((List.range' j m).map
        (fun k => (buffer.drop (k * ds)).take ds)).flatten
      = (buffer.drop (j * ds)).take (m * ds) := by
  intro m
  induction m with
  | zero => intro j; simp
  | succ m ih =>
      intro j
      rw [List.range'_succ, List.map_cons, List.flatten_cons, ih (j + 1)]
      have h1 : (m + 1) * ds = ds + m * ds := by ring
      have h2 : (j + 1) * ds = j * ds + ds := by ring
      rw [h1, h2, List.take_add, ← List.drop_drop]

/-- One iteration of the chunk loop on a chunk buffer in header form: setting
byte 10 rewrites the sequence number, copying the payload at offset 12
overwrites the front of the data area, and the slice keeps exactly the header
plus the fresh payload. -/
lemma chunk_iteration (id : List Nat) (hid : id.length = 8)
    (x count seq : Nat) (tail payload : List Nat) :
    ((30 :: 15 :: id ++ [x, count] ++ tail).set 10 seq
        = 30 :: 15 :: id ++ [seq, count] ++ tail)
    ∧ (writeAt (30 :: 15 :: id ++ [seq, count] ++ tail) 12 payload
        = 30 :: 15 :: id ++ [seq, count]
            ++ (payload ++ tail.drop payload.length))
    ∧ ((30 :: 15 :: id ++ [seq, count]
          ++ (payload ++ tail.drop payload.length)).take (payload.length + 12)
        = 30 :: 15 :: id ++ [seq, count] ++ payload) := by
  refine ⟨?_, ?_, ?_⟩
  · have h := set_append_len (30 :: 15 :: id) x seq (count :: tail) 10
      (by simp [hid])
    simpa using h
  · have h := writeAt_append ((30 :: 15 :: id) ++ [seq, count]) tail payload 12
      (by simp [hid])
    simpa using h
  · have h := @List.take_append _ ((30 :: 15 :: id) ++ [seq, count])
      (payload ++ tail.drop payload.length) payload.length
    have hlen : ((30 :: 15 :: id) ++ [seq, count]).length = 12 := by
      simp [hid]
    rw [hlen] at h
    have htake : (payload ++ tail.drop payload.length).take payload.length
        = payload := List.take_left _ _
    rw [htake] at h
    have hcomm : payload.length + 12 = 12 + payload.length := Nat.add_comm _ _
    rw [hcomm]
    simpa using h

/-- The freshly prepared chunk buffer of `_sendChunkedStream`
(`Buffer.alloc` plus the four header writes) in header form. -/
lemma chunkInit_shape (B : Nat) (hB : 12 < B) (id : List Nat)
    (hid : id.length = 8) (count : Nat) :
    writeAt ((((List.replicate B 0).set 0 30).set 1 15).set 11 count) 2
        (id.take 8)
      = 30 :: 15 :: id ++ [0, count] ++ List.replicate (B - 12) 0 := by
  have hidt : id.take 8 = id := by
    rw [← hid]
    exact List.take_length id
  have h12 : B = 12 + (B - 12) := by omega
  have hrep : List.replicate B (0 : Nat)
      = 0 :: 0 :: 0 :: 0 :: 0 :: 0 :: 0 :: 0 :: 0 :: 0 :: 0 :: 0 ::
        List.replicate (B - 12) (0 : Nat) := by
    conv_lhs => rw [h12]
    rw [List.replicate_add]
    rfl
  rw [hrep, hidt, writeAt, hid]
  simp

/-- The chunk loop under an always-succeeding transport: starting from a chunk
buffer in header form, the datagrams handed to the network for sequence
numbers `j, j+1, …, j+m-1` are exactly the 12-byte header (magic bytes, the
shared id, the sequence number, the shared total count) followed by the
corresponding payload slice of the original buffer, all to the same server;
the call resolves, and the loop leaves `_callCount`, the drawn-id count, both
in-flight counters and the closing flag untouched. -/
lemma chunkLoop_ok_spec (env : Env) (buffer : List Nat)
    (dataSize server count : Nat) (id : List Nat) (hid : id.length = 8)
    (hok : ∀ n, env.outcome n = .ok) :
    ∀ (m j : Nat) (s : St) (x : Nat) (tail : List Nat),
      tail.length = dataSize →
      (chunkLoop env buffer dataSize server (List.range' j m) s
          (30 :: 15 :: id ++ [x, count] ++ tail)).sent
        = (List.range' j m).map (fun k =>
            ⟨30 :: 15 :: id ++ [k, count]
              ++ (buffer.drop (k * dataSize)).take dataSize, server⟩)
      ∧ (∃ n, (chunkLoop env buffer dataSize server (List.range' j m) s
          (30 :: 15 :: id ++ [x, count] ++ tail)).res = .ok n)
      ∧ (chunkLoop env buffer dataSize server (List.range' j m) s
          (30 :: 15 :: id ++ [x, count] ++ tail)).st.callCount = s.callCount
      ∧ (chunkLoop env buffer dataSize server (List.range' j m) s
          (30 :: 15 :: id ++ [x, count] ++ tail)).st.randomUsed = s.randomUsed
      ∧ (chunkLoop env buffer dataSize server (List.range' j m) s
          (30 :: 15 :: id ++ [x, count] ++ tail)).st.unsentMessages
          = s.unsentMessages
      ∧ (chunkLoop env buffer dataSize server (List.range' j m) s
          (30 :: 15 :: id ++ [x, count] ++ tail)).st.unsentChunks
          = s.unsentChunks
      ∧ (chunkLoop env buffer dataSize server (List.range' j m) s
          (30 :: 15 :: id ++ [x, count] ++ tail)).st.closing = s.closing := by
  intro m
  induction m with
  | zero =>
      intro j s x tail htail
      simp [chunkLoop]
  | succ m ih =>
      intro j s x tail htail
      obtain ⟨hset, hwrite, htake⟩ :=
        chunk_iteration id hid x count j tail
          ((buffer.drop (j * dataSize)).take dataSize)
      rw [List.range'_succ]
      simp only [chunkLoop, hset, hwrite, htake]
      rw [sendChunkM_ok env s _ server (hok _)]
      have htail2 : ((buffer.drop (j * dataSize)).take dataSize
          ++ tail.drop ((buffer.drop (j * dataSize)).take dataSize).length).length
          = dataSize := by
        have hle : ((buffer.drop (j * dataSize)).take dataSize).length
            ≤ dataSize := List.length_take_le _ _
        simp only [List.length_append, List.length_drop, htail]
        omega
      obtain ⟨hsent2, ⟨n2, hres2⟩, hcc2, hru2, hum2, huc2, hcl2⟩ :=
        ih (j + 1) { s with client := true, attempts := s.attempts + 1 }
          j ((buffer.drop (j * dataSize)).take dataSize
            ++ tail.drop ((buffer.drop (j * dataSize)).take dataSize).length)
          htail2
      dsimp only
      rw [hsent2, hres2]
      refine ⟨rfl, ⟨?_, ?_⟩, ?_, ?_, ?_, ?_, ?_⟩
      · exact ((30 :: 15 :: id ++ [j, count]
          ++ (buffer.drop (j * dataSize)).take dataSize).length + n2)
      · rfl
      · simpa using hcc2
      · simpa using hru2
      · simpa using hum2
      · simpa using huc2
      · simpa using hcl2

/-- Full specification of `_sendChunkedStream` under an always-succeeding
transport, for buffers that need at most 128 chunks. -/
lemma sendChunkedStreamM_spec (env : Env) (B N : Nat) (s : St)
    (buffer : List Nat) (hB : 12 < B)
    (hmax : buffer.length ≤ 128 * (B - 12))
    (hid : (env.randomId s.randomUsed).length = 8)
    (hok : ∀ n, env.outcome n = .ok) :
    (sendChunkedStreamM env B N s buffer).sent
      = (List.range (ceilDiv buffer.length (B - 12))).map (fun k =>
          ⟨30 :: 15 :: env.randomId s.randomUsed
            ++ [k, ceilDiv buffer.length (B - 12)]
            ++ (buffer.drop (k * (B - 12))).take (B - 12),
           s.callCount % N⟩)
    ∧ (∃ n, (sendChunkedStreamM env B N s buffer).res = .ok n)
    ∧ (sendChunkedStreamM env B N s buffer).st.callCount = s.callCount + 1
    ∧ (sendChunkedStreamM env B N s buffer).st.randomUsed = s.randomUsed + 1
    ∧ (sendChunkedStreamM env B N s buffer).st.unsentMessages
        = s.unsentMessages
    ∧ (sendChunkedStreamM env B N s buffer).st.unsentChunks
        = s.unsentChunks
    ∧ (sendChunkedStreamM env B N s buffer).st.closing = s.closing := by
  have hds : 0 < B - 12 := by omega
  have hcount : ¬ 128 < ceilDiv buffer.length (B - 12) := by
    have := (ceilDiv_le_iff buffer.length (B - 12) 128 hds).mpr
      (by omega : buffer.length ≤ 128 * (B - 12))
    omega
  have hspec := chunkLoop_ok_spec env buffer (B - 12) (s.callCount % N)
    (ceilDiv buffer.length (B - 12)) (env.randomId s.randomUsed) hid hok
    (ceilDiv buffer.length (B - 12)) 0
    { s with randomUsed := s.randomUsed + 1, callCount := s.callCount + 1 }
    0 (List.replicate (B - 12) 0) (List.length_replicate _ _)
  rw [← List.range_eq_range'] at hspec
  simp only [sendChunkedStreamM, hcount, if_neg, not_false_eq_true,
    getServerM]
  rw [chunkInit_shape B hB (env.randomId s.randomUsed) hid _]
  obtain ⟨h1, h2, h3, h4, h5, h6, h7⟩ := hspec
  exact ⟨h1, h2, by rw [h3], by rw [h4], by rw [h5], by rw [h6], by rw [h7]⟩

lemma drop_append_len (pre l : List Nat) (n : Nat) (h : pre.length = n) :
    (pre ++ l).drop n = l := by
  subst h
  exact List.drop_left _ _

/-! ### Claim C1 -/

/-- C1: for every raw buffer that must be chunked (length above the configured
buffer size `B`) and that fits in 128 chunks (length at most `128*(B-12)`),
with an always-succeeding transport, the chunked sender resolves and emits
exactly `ceil(len/(B-12))` datagrams; the `k`-th datagram is the 12-byte
header `[0x1E, 0x0F, id0..id7, seq, total]` — one shared 8-byte id, sequence
number `k` (so the sequence numbers are exactly `0..total-1` in ascending
order), total equal to the number of datagrams — followed by the `k`-th
payload slice, all to one server; and concatenating the payload slices (bytes
12 onward) in sequence order reproduces the original buffer byte for byte. -/
theorem C1_chunked_layout (env : Env) (B N : Nat) (s : St)
    (buffer : List Nat) (hB : 12 < B) (hgt : B < buffer.length)
    (hmax : buffer.length ≤ 128 * (B - 12))
    (hid : (env.randomId s.randomUsed).length = 8)
    (hok : ∀ n, env.outcome n = .ok) :
    (∃ n, (sendChunkedStreamM env B N s buffer).res = .ok n)
    ∧ (sendChunkedStreamM env B N s buffer).sent.length
        = ceilDiv buffer.length (B - 12)
    ∧ (sendChunkedStreamM env B N s buffer).sent
        = (List.range (ceilDiv buffer.length (B - 12))).map (fun k =>
            ⟨30 :: 15 :: env.randomId s.randomUsed
              ++ [k, ceilDiv buffer.length (B - 12)]
              ++ (buffer.drop (k * (B - 12))).take (B - 12),
             s.callCount % N⟩)
    ∧ ((sendChunkedStreamM env B N s buffer).sent.map
        (fun d => d.bytes.drop 12)).flatten = buffer := by
  obtain ⟨h1, h2, -, -, -, -, -⟩ :=
    sendChunkedStreamM_spec env B N s buffer hB hmax hid hok
  have hds : 0 < B - 12 := by omega
  refine ⟨h2, ?_, h1, ?_⟩
  · rw [h1]
    simp
  · rw [h1, List.map_map]
    have hdrop : ∀ k : Nat,
        ((fun d : Datagram => d.bytes.drop 12) ∘ (fun k =>
          (⟨30 :: 15 :: env.randomId s.randomUsed
            ++ [k, ceilDiv buffer.length (B - 12)]
            ++ (buffer.drop (k * (B - 12))).take (B - 12),
           s.callCount % N⟩ : Datagram))) k
        = (buffer.drop (k * (B - 12))).take (B - 12) := by
      intro k
      have h := drop_append_len
        (30 :: 15 :: env.randomId s.randomUsed
          ++ [k, ceilDiv buffer.length (B - 12)])
        ((buffer.drop (k * (B - 12))).take (B - 12)) 12 (by simp [hid])
      simpa using h
    rw [List.map_congr_left (fun k _ => hdrop k), List.range_eq_range',
      flatten_slices buffer (B - 12) (ceilDiv buffer.length (B - 12)) 0]
    simp only [Nat.zero_mul, List.drop_zero]
    exact List.take_of_length_le (le_ceilDiv_mul _ _ hds)

/-- C1 witness: the theorem applied at buffer size 14 (usable payload 2) and
the 15-byte buffer `0,…,14`, which needs 8 chunks. -/
theorem C1_witness :
    (∃ n, (sendChunkedStreamM envAllOk 14 3 stFresh (List.range 15)).res
        = .ok n)
    ∧ (sendChunkedStreamM envAllOk 14 3 stFresh (List.range 15)).sent.length
        = ceilDiv (List.range 15).length (14 - 12)
    ∧ (sendChunkedStreamM envAllOk 14 3 stFresh (List.range 15)).sent
        = (List.range (ceilDiv (List.range 15).length (14 - 12))).map (fun k =>
            ⟨30 :: 15 :: envAllOk.randomId stFresh.randomUsed
              ++ [k, ceilDiv (List.range 15).length (14 - 12)]
              ++ ((List.range 15).drop (k * (14 - 12))).take (14 - 12),
             stFresh.callCount % 3⟩)
    ∧ ((sendChunkedStreamM envAllOk 14 3 stFresh (List.range 15)).sent.map
        (fun d => d.bytes.drop 12)).flatten = List.range 15 :=
  C1_chunked_layout envAllOk 14 3 stFresh (List.range 15)
    (by decide) (by decide) (by decide) rfl (fun _ => rfl)

/-! ### Claim C3 -/

/-- C3: for every buffer that would require more than 128 chunks, the send
fails with the size-exceeded error before the random message id is drawn,
before the server selector is advanced and before any transport attempt: no
datagram is transmitted and the state is completely unchanged (the in-flight
message counter was incremented and decremented again by the `finally` step,
and the destroy hook does not run on the error path), so the only observable
effect is the error itself.  The counter events `beginMsg, endMsg` are the
balanced increment/decrement pair of the message counter. -/
theorem C3_size_guard (env : Env) (B N : Nat) (s : St) (buffer : List Nat)
    (hB : 12 < B)
    (hcount : 128 < ceilDiv buffer.length (B - 12)) :
    (sendDataM env B N s buffer).res
        = .error (.sizeExceeded ((B - 12) * 128))
    ∧ (sendDataM env B N s buffer).st = s
    ∧ (sendDataM env B N s buffer).sent = []
    ∧ (sendDataM env B N s buffer).trace = [.beginMsg, .endMsg] := by
  have hds : 0 < B - 12 := by omega
  have hgt : B < buffer.length := by
    have := ceilDiv_gt_imp buffer.length (B - 12) hds hcount
    omega
  have hnfit : ¬ buffer.length ≤ B := by omega
  refine ⟨?_, ?_, ?_, ?_⟩ <;> (try cases s) <;>
    simp [sendDataM, hnfit, sendChunkedStreamM, hcount]

set_option maxRecDepth 4000 in
/-- C3 witness: the theorem applied at buffer size 13 (usable payload 1) and
a 130-byte buffer, which would need 130 chunks. -/
theorem C3_witness :
    (sendDataM envAllOk 13 3 stFresh (List.replicate 130 7)).res
        = .error (.sizeExceeded ((13 - 12) * 128))
    ∧ (sendDataM envAllOk 13 3 stFresh (List.replicate 130 7)).st = stFresh
    ∧ (sendDataM envAllOk 13 3 stFresh (List.replicate 130 7)).sent = []
    ∧ (sendDataM envAllOk 13 3 stFresh (List.replicate 130 7)).trace
        = [.beginMsg, .endMsg] :=
  C3_size_guard envAllOk 13 3 stFresh (List.replicate 130 7)
    (by decide) (by decide)

/-! ### Claim C9 -/

lemma sendManyM_spec (env : Env) (mode : DeflateMode) (B N : Nat)
    (hok : ∀ n, env.outcome n = .ok)
    (hmode : mode = .optimal ∨ mode = .never) :
    ∀ (bufs : List (List Nat)) (s : St), (∀ b ∈ bufs, b.length ≤ B) →
      (sendManyM env mode B N s bufs).2.map (fun d => d.server)
          = (List.range' s.callCount bufs.length).map (fun k => k % N)
      ∧ (sendManyM env mode B N s bufs).1.callCount
          = s.callCount + bufs.length := by
  intro bufs
  induction bufs with
  | nil =>
      intro s hb
      simp [sendManyM]
  | cons b rest ih =>
      intro s hb
      have hsend := sendM_single env mode B N s b
        (hb b (List.mem_cons_self _ _)) hmode (hok _)
      have hcc : (runDestroyIfNeeded
          { s with
            client := true
            attempts := s.attempts + 1
            callCount := s.callCount + 1 }).callCount = s.callCount + 1 :=
        (runDestroyIfNeeded_fields _).1
      obtain ⟨ih1, ih2⟩ := ih
        (runDestroyIfNeeded
          { s with
            client := true
            attempts := s.attempts + 1
            callCount := s.callCount + 1 })
        (fun b2 hb2 => hb b2 (List.mem_cons_of_mem _ hb2))
      rw [hcc] at ih1 ih2
      simp only [sendManyM, hsend]
      constructor
      · rw [List.map_append, ih1, List.length_cons, List.range'_succ,
          List.map_cons]
        rfl
      · simp only [List.length_cons]
        omega

/-- C9: the server selector returns `servers[callCount mod N]` and then
increments its call counter; it is invoked exactly once per logical message:
a chunked message advances the counter by exactly one and every one of its
datagrams goes to the same endpoint `callCount mod N`, while consecutive
independent single-datagram sends on a fresh client (call counter 0) visit
the endpoints in cyclical order `0 % N, 1 % N, 2 % N, …` starting from
index 0. -/
theorem C9_round_robin :
    (∀ (N : Nat) (s : St), getServerM N s
        = (s.callCount % N, { s with callCount := s.callCount + 1 }))
    ∧ (∀ (env : Env) (B N : Nat) (s : St) (buffer : List Nat),
        12 < B → buffer.length ≤ 128 * (B - 12) →
        (env.randomId s.randomUsed).length = 8 →
        (∀ n, env.outcome n = .ok) →
        (∀ d ∈ (sendChunkedStreamM env B N s buffer).sent,
            d.server = s.callCount % N)
        ∧ (sendChunkedStreamM env B N s buffer).st.callCount
            = s.callCount + 1)
    ∧ (∀ (env : Env) (mode : DeflateMode) (B N : Nat) (s : St)
        (bufs : List (List Nat)),
        (∀ b ∈ bufs, b.length ≤ B) → (mode = .optimal ∨ mode = .never) →
        (∀ n, env.outcome n = .ok) → s.callCount = 0 →
        (sendManyM env mode B N s bufs).2.map (fun d => d.server)
          = (List.range bufs.length).map (fun k => k % N)) := by
  refine ⟨fun N s => rfl, ?_, ?_⟩
  · intro env B N s buffer hB hmax hid hok
    obtain ⟨h1, -, h3, -, -, -, -⟩ :=
      sendChunkedStreamM_spec env B N s buffer hB hmax hid hok
    refine ⟨?_, h3⟩
    intro d hd
    rw [h1] at hd
    obtain ⟨k, -, rfl⟩ := List.mem_map.mp hd
    rfl
  · intro env mode B N s bufs hb hmode hok hcc
    have := (sendManyM_spec env mode B N hok hmode bufs s hb).1
    rw [hcc] at this
    rw [this, List.range_eq_range']

/-- C9 witness: two single-datagram sends on a fresh client with three
configured servers go to servers 0 and 1, and a chunked send goes entirely to
one server while advancing the selector once. -/
theorem C9_witness :
    ((∀ d ∈ (sendChunkedStreamM envAllOk 14 3 stFresh (List.range 15)).sent,
        d.server = stFresh.callCount % 3)
      ∧ (sendChunkedStreamM envAllOk 14 3 stFresh (List.range 15)).st.callCount
          = stFresh.callCount + 1)
    ∧ (sendManyM envAllOk .optimal 1400 3 stFresh [[123], [124]]).2.map
        (fun d => d.server)
      = (List.range 2).map (fun k => k % 3) := by
  refine ⟨C9_round_robin.2.1 envAllOk 14 3 stFresh (List.range 15)
    (by decide) (by decide) rfl (fun _ => rfl), ?_⟩
  have h := C9_round_robin.2.2 envAllOk .optimal 1400 3 stFresh
    [[123], [124]] (by decide) (Or.inl rfl) (fun _ => rfl) rfl
  simpa using h

/-! ### Claim C6: counter pairing and the event trace -/

lemma evSum_nil (f : Ev → Int) : evSum f [] = 0 := rfl

lemma evSum_cons (f : Ev → Int) (e : Ev) (l : List Ev) :
    evSum f (e :: l) = f e + evSum f l := by
  simp [evSum]

lemma evSum_append (f : Ev → Int) (a b : List Ev) :
    evSum f (a ++ b) = evSum f a + evSum f b := by
  simp [evSum]

lemma sendChunkM_unsentMessages (env : Env) (s : St) (chunk : List Nat)
    (server : Nat) :
    (sendChunkM env s chunk server).st.unsentMessages = s.unsentMessages := by
  rcases h : env.outcome s.attempts with _ | _ | _ <;>
    simp [sendChunkM, getClientM, h]

lemma chunkLoop_unsentMessages (env : Env) (buffer : List Nat)
    (dataSize server : Nat) :
    ∀ (seqs : List Nat) (s : St) (chunkBuf : List Nat),
      (chunkLoop env buffer dataSize server seqs s chunkBuf).st.unsentMessages
        = s.unsentMessages := by
  intro seqs
  induction seqs with
  | nil => intro s cb; rfl
  | cons seq rest ih =>
      intro s cb
      simp only [chunkLoop]
      split
      next e heq => exact sendChunkM_unsentMessages env s _ server
      next n1 heq =>
        dsimp only
        rw [ih _ _]
        exact sendChunkM_unsentMessages env s _ server

lemma sendChunkedStreamM_unsentMessages (env : Env) (B N : Nat) (s : St)
    (buffer : List Nat) :
    (sendChunkedStreamM env B N s buffer).st.unsentMessages
      = s.unsentMessages := by
  by_cases hc : 128 < ceilDiv buffer.length (B - 12)
  · simp [sendChunkedStreamM, hc]
  · simp only [sendChunkedStreamM, hc, if_neg, not_false_eq_true, getServerM]
    rw [chunkLoop_unsentMessages]

lemma runDestroyIfNeeded_unsentMessages (s : St) :
    (runDestroyIfNeeded s).unsentMessages = s.unsentMessages :=
  (runDestroyIfNeeded_fields s).2.2.2.1

lemma runDestroyIfNeeded_unsentChunks (s : St) :
    (runDestroyIfNeeded s).unsentChunks = s.unsentChunks :=
  (runDestroyIfNeeded_fields s).2.2.2.2

lemma sendDataM_unsentMessages (env : Env) (B N : Nat) (s : St)
    (buffer : List Nat) :
    (sendDataM env B N s buffer).st.unsentMessages = s.unsentMessages := by
  simp only [sendDataM, getServerM]
  split <;> split <;> dsimp only <;>
    simp [runDestroyIfNeeded_unsentMessages, sendChunkM_unsentMessages,
      sendChunkedStreamM_unsentMessages]

lemma pairTr_add (a b : Nat) : pairTr (a + b) = pairTr a ++ pairTr b := by
  induction a with
  | zero => simp [pairTr]
  | succ a ih =>
      have h : a + 1 + b = (a + b) + 1 := by omega
      rw [h, pairTr, ih, pairTr]
      rfl

lemma sendChunkM_noThrow (env : Env) (s : St) (chunk : List Nat)
    (server : Nat) (h : env.outcome s.attempts ≠ .throwSyn) :
    (sendChunkM env s chunk server).trace = pairTr 1
    ∧ (sendChunkM env s chunk server).st.unsentChunks = s.unsentChunks := by
  rcases h2 : env.outcome s.attempts with _ | _ | _ <;>
    simp [sendChunkM, getClientM, h2, pairTr] at h ⊢

lemma chunkLoop_noThrow (env : Env) (buffer : List Nat)
    (dataSize server : Nat) (hnt : ∀ n, env.outcome n ≠ .throwSyn) :
    ∀ (seqs : List Nat) (s : St) (chunkBuf : List Nat),
      ∃ k, (chunkLoop env buffer dataSize server seqs s chunkBuf).trace
          = pairTr k
        ∧ (chunkLoop env buffer dataSize server seqs s chunkBuf).st.unsentChunks
          = s.unsentChunks := by
  intro seqs
  induction seqs with
  | nil => intro s cb; exact ⟨0, rfl, rfl⟩
  | cons seq rest ih =>
      intro s cb
      obtain ⟨h1tr, h1ch⟩ := sendChunkM_noThrow env s
        ((writeAt (cb.set 10 seq) 12
          ((buffer.drop (seq * dataSize)).take dataSize)).take
          (((buffer.drop (seq * dataSize)).take dataSize).length + 12))
        server (hnt _)
      simp only [chunkLoop]
      split
      next e heq => exact ⟨1, h1tr, h1ch⟩
      next n1 heq =>
        dsimp only
        obtain ⟨k, h2tr, h2ch⟩ := ih
          ((sendChunkM env s _ server).st)
          (writeAt (cb.set 10 seq) 12
            ((buffer.drop (seq * dataSize)).take dataSize))
        refine ⟨1 + k, ?_, ?_⟩
        · rw [h1tr, h2tr, pairTr_add]
        · rw [h2ch, h1ch]

lemma sendChunkedStreamM_noThrow (env : Env) (B N : Nat) (s : St)
    (buffer : List Nat) (hnt : ∀ n, env.outcome n ≠ .throwSyn) :
    ∃ k, (sendChunkedStreamM env B N s buffer).trace = pairTr k
      ∧ (sendChunkedStreamM env B N s buffer).st.unsentChunks
        = s.unsentChunks := by
  by_cases hc : 128 < ceilDiv buffer.length (B - 12)
  · exact ⟨0, by simp [sendChunkedStreamM, hc, pairTr],
      by simp [sendChunkedStreamM, hc]⟩
  · simp only [sendChunkedStreamM, hc, if_neg, not_false_eq_true, getServerM]
    exact chunkLoop_noThrow env buffer (B - 12) _ hnt _ _ _

lemma sendDataM_noThrow (env : Env) (B N : Nat) (s : St) (buffer : List Nat)
    (hnt : ∀ n, env.outcome n ≠ .throwSyn) :
    ∃ k, (sendDataM env B N s buffer).trace
        = Ev.beginMsg :: pairTr k ++ [Ev.endMsg]
      ∧ (sendDataM env B N s buffer).st.unsentChunks = s.unsentChunks := by
  by_cases hfit : buffer.length ≤ B
  · obtain ⟨h1tr, h1ch⟩ := sendChunkM_noThrow env
      { s with callCount := s.callCount + 1,
               unsentMessages := s.unsentMessages + 1 } buffer
      (s.callCount % N) (hnt _)
    refine ⟨1, ?_, ?_⟩ <;>
      simp only [sendDataM, getServerM, hfit, if_pos] <;>
      split <;> dsimp only <;>
      simp [h1tr, h1ch, runDestroyIfNeeded_unsentChunks]
  · obtain ⟨k, h1tr, h1ch⟩ := sendChunkedStreamM_noThrow env B N
      { s with unsentMessages := s.unsentMessages + 1 } buffer hnt
    refine ⟨k, ?_, ?_⟩ <;>
      simp only [sendDataM, getServerM, hfit, if_neg, not_false_eq_true] <;>
      split <;> dsimp only <;>
      simp [h1tr, h1ch, runDestroyIfNeeded_unsentChunks]

lemma mem_pairTr (e : Ev) :
    ∀ k, e ∈ pairTr k → e = .beginChunk ∨ e = .endChunk := by
  intro k
  induction k with
  | zero => intro h; cases h
  | succ k ih =>
      intro h
      rw [pairTr] at h
      rcases h with _ | ⟨_, h⟩
      · exact Or.inl rfl
      rcases h with _ | ⟨_, h⟩
      · exact Or.inr rfl
      · exact ih h

lemma evSum_msg_prefix_pairTr (k : Nat) (pre : List Ev)
    (h : pre <+: pairTr k) : evSum msgDelta pre = 0 := by
  apply List.sum_eq_zero
  intro x hx
  obtain ⟨e, he, rfl⟩ := List.mem_map.mp hx
  rcases mem_pairTr e k (h.subset he) with rfl | rfl <;> rfl

lemma evSum_chunk_prefix_pairTr :
    ∀ (k : Nat) (pre : List Ev), pre <+: pairTr k →
      evSum chunkDelta pre = 0 ∨ evSum chunkDelta pre = 1 := by
  intro k
  induction k with
  | zero =>
      intro pre h
      rw [show pairTr 0 = [] from rfl, List.prefix_nil] at h
      subst h
      exact Or.inl rfl
  | succ k ih =>
      intro pre h
      rw [pairTr] at h
      rcases List.prefix_cons_iff.mp h with rfl | ⟨t, rfl, ht⟩
      · exact Or.inl rfl
      rcases List.prefix_cons_iff.mp ht with rfl | ⟨t2, rfl, ht2⟩
      · right
        simp [evSum_cons, chunkDelta, evSum_nil]
      · rcases ih t2 ht2 with h0 | h1
        · left
          simp [evSum_cons, chunkDelta, h0]
        · right
          simp [evSum_cons, chunkDelta, h1]

lemma sendTrace_prefix_nonneg (k : Nat) (pre : List Ev)
    (h : pre <+: Ev.beginMsg :: pairTr k ++ [Ev.endMsg]) :
    0 ≤ evSum msgDelta pre ∧ 0 ≤ evSum chunkDelta pre := by
  rcases List.prefix_cons_iff.mp h with rfl | ⟨t, rfl, ht⟩
  · exact ⟨le_refl 0, le_refl 0⟩
  rcases List.prefix_concat_iff.mp ht with hteq | htpre
  · subst hteq
    constructor
    · rw [evSum_cons, evSum_append, evSum_msg_prefix_pairTr k _ (List.prefix_refl _)]
      simp [msgDelta, evSum_cons, evSum_nil]
    · rw [evSum_cons, evSum_append]
      have h2 := evSum_chunk_prefix_pairTr k (pairTr k) (List.prefix_refl _)
      have h3 : evSum chunkDelta [Ev.endMsg] = 0 := rfl
      rcases h2 with h2 | h2 <;> simp [chunkDelta, h2, h3]
  · constructor
    · rw [evSum_cons, evSum_msg_prefix_pairTr k t htpre]
      simp [msgDelta]
    · rw [evSum_cons]
      rcases evSum_chunk_prefix_pairTr k t htpre with h2 | h2 <;>
        simp [chunkDelta, h2]

/-- C6 counterexample: the claim states that the chunk counter is decremented
whenever a transmission completes or fails, so that all counters return to
their prior values once every send has settled.  When the socket `send`
throws synchronously — exactly how the repository's own tests stub the
failing transport — the callback that performs `this._unsentChunks -= 1`
never runs: after a single settled send the chunk counter is stuck at 1
instead of returning to 0 (while the message counter, protected by
`finally`, is correctly restored). -/
theorem C6_counterexample :
    stFresh.unsentChunks = 0
    ∧ (sendDataM envThrow 1400 1 stFresh [1, 2, 3]).st.unsentChunks = 1
    ∧ (sendDataM envThrow 1400 1 stFresh [1, 2, 3]).st.unsentMessages = 0 := by
  refine ⟨rfl, rfl, rfl⟩

/-- C6 (amended): the message counter is incremented before a send starts and
decremented in a `finally` step, so it returns to its prior value on every
exit path, including synchronous transport throws.  The chunk counter is
incremented before each datagram transmission but decremented only inside the
transport completion callback; provided the transport never throws
synchronously (every attempt reports back through its callback, with success
or error), the chunk counter also returns to its prior value once the send
has settled, and along the whole event trace of the send both counters never
drop below their starting values. -/
theorem C6_amended (env : Env) (B N : Nat) (s : St) (buffer : List Nat)
    (hnt : ∀ n, env.outcome n ≠ .throwSyn) :
    (sendDataM env B N s buffer).st.unsentMessages = s.unsentMessages
    ∧ (sendDataM env B N s buffer).st.unsentChunks = s.unsentChunks
    ∧ (∀ pre, pre <+: (sendDataM env B N s buffer).trace →
        0 ≤ evSum msgDelta pre ∧ 0 ≤ evSum chunkDelta pre)
    ∧ (∀ (env2 : Env) (s2 : St) (b2 : List Nat),
        (sendDataM env2 B N s2 b2).st.unsentMessages = s2.unsentMessages) := by
  obtain ⟨k, htr, hch⟩ := sendDataM_noThrow env B N s buffer hnt
  refine ⟨sendDataM_unsentMessages env B N s buffer, hch, ?_,
    fun env2 s2 b2 => sendDataM_unsentMessages env2 B N s2 b2⟩
  intro pre hpre
  rw [htr] at hpre
  exact sendTrace_prefix_nonneg k pre hpre

/-- C6 witness: the amended statement applied to a concrete small send with
an always-succeeding transport. -/
theorem C6_witness :
    (sendDataM envAllOk 1400 1 stFresh [1, 2, 3]).st.unsentMessages
        = stFresh.unsentMessages
    ∧ (sendDataM envAllOk 1400 1 stFresh [1, 2, 3]).st.unsentChunks
        = stFresh.unsentChunks
    ∧ (∀ pre, pre <+: (sendDataM envAllOk 1400 1 stFresh [1, 2, 3]).trace →
        0 ≤ evSum msgDelta pre ∧ 0 ≤ evSum chunkDelta pre)
    ∧ (∀ (env2 : Env) (s2 : St) (b2 : List Nat),
        (sendDataM env2 1400 1 s2 b2).st.unsentMessages
          = s2.unsentMessages) :=
  C6_amended envAllOk 1400 1 stFresh [1, 2, 3]
    (fun n => by simp [envAllOk])

/-! ### Claim C5: the drain hook at the end of `_sendData` -/

lemma sendChunkM_client (env : Env) (s : St) (chunk : List Nat)
    (server : Nat) :
    (sendChunkM env s chunk server).st.client = true := by
  rcases h : env.outcome s.attempts with _ | _ | _ <;>
    simp [sendChunkM, getClientM, h]

lemma sendChunkM_closing (env : Env) (s : St) (chunk : List Nat)
    (server : Nat) :
    (sendChunkM env s chunk server).st.closing = s.closing := by
  rcases h : env.outcome s.attempts with _ | _ | _ <;>
    simp [sendChunkM, getClientM, h]

lemma sendChunkM_ok_chunks (env : Env) (s : St) (chunk : List Nat)
    (server n : Nat)
    (h : (sendChunkM env s chunk server).res = .ok n) :
    (sendChunkM env s chunk server).st.unsentChunks = s.unsentChunks := by
  rcases h2 : env.outcome s.attempts with _ | _ | _ <;>
    simp [sendChunkM, getClientM, h2] at h ⊢

lemma chunkLoop_closing (env : Env) (buffer : List Nat)
    (dataSize server : Nat) :
    ∀ (seqs : List Nat) (s : St) (chunkBuf : List Nat),
      (chunkLoop env buffer dataSize server seqs s chunkBuf).st.closing
        = s.closing := by
  intro seqs
  induction seqs with
  | nil => intro s cb; rfl
  | cons seq rest ih =>
      intro s cb
      simp only [chunkLoop]
      split
      next e heq => exact sendChunkM_closing env s _ server
      next n1 heq =>
        dsimp only
        rw [ih _ _]
        exact sendChunkM_closing env s _ server

lemma chunkLoop_client_mono (env : Env) (buffer : List Nat)
    (dataSize server : Nat) :
    ∀ (seqs : List Nat) (s : St) (chunkBuf : List Nat), s.client = true →
      (chunkLoop env buffer dataSize server seqs s chunkBuf).st.client
        = true := by
  intro seqs
  induction seqs with
  | nil => intro s cb h; exact h
  | cons seq rest ih =>
      intro s cb h
      simp only [chunkLoop]
      split
      next e heq => exact sendChunkM_client env s _ server
      next n1 heq =>
        dsimp only
        exact ih _ _ (sendChunkM_client env s _ server)

lemma chunkLoop_client_cons (env : Env) (buffer : List Nat)
    (dataSize server seq : Nat) (rest : List Nat) (s : St)
    (chunkBuf : List Nat) :
    (chunkLoop env buffer dataSize server (seq :: rest) s chunkBuf).st.client
      = true := by
  simp only [chunkLoop]
  split
  next e heq => exact sendChunkM_client env s _ server
  next n1 heq =>
    dsimp only
    exact chunkLoop_client_mono env buffer dataSize server rest _ _
      (sendChunkM_client env s _ server)

lemma chunkLoop_ok_chunks (env : Env) (buffer : List Nat)
    (dataSize server : Nat) :
    ∀ (seqs : List Nat) (s : St) (chunkBuf : List Nat) (n : Nat),
      (chunkLoop env buffer dataSize server seqs s chunkBuf).res = .ok n →
      (chunkLoop env buffer dataSize server seqs s chunkBuf).st.unsentChunks
        = s.unsentChunks := by
  intro seqs
  induction seqs with
  | nil => intro s cb n h; rfl
  | cons seq rest ih =>
      intro s cb n h
      simp only [chunkLoop] at h ⊢
      split at h
      next e heq => simp at h
      next n1 heq =>
        dsimp only at h ⊢
        obtain ⟨m, h3, -⟩ := exceptMap_eq_ok.mp h
        rw [ih _ _ m h3]
        exact sendChunkM_ok_chunks env s _ server n1 heq

lemma ceilDiv_pos (a b : Nat) (ha : 0 < a) (hb : 0 < b) :
    0 < ceilDiv a b := by
  rw [ceilDiv]
  exact Nat.div_pos (by omega) hb

lemma sendChunkedStreamM_closing (env : Env) (B N : Nat) (s : St)
    (buffer : List Nat) :
    (sendChunkedStreamM env B N s buffer).st.closing = s.closing := by
  by_cases hc : 128 < ceilDiv buffer.length (B - 12)
  · simp [sendChunkedStreamM, hc]
  · simp only [sendChunkedStreamM, hc, if_neg, not_false_eq_true, getServerM]
    rw [chunkLoop_closing]

lemma sendChunkedStreamM_ok_chunks (env : Env) (B N : Nat) (s : St)
    (buffer : List Nat) (n : Nat)
    (h : (sendChunkedStreamM env B N s buffer).res = .ok n) :
    (sendChunkedStreamM env B N s buffer).st.unsentChunks
      = s.unsentChunks := by
  by_cases hc : 128 < ceilDiv buffer.length (B - 12)
  · simp [sendChunkedStreamM, hc] at h
  · simp only [sendChunkedStreamM, hc, if_neg, not_false_eq_true,
      getServerM] at h ⊢
    exact chunkLoop_ok_chunks env buffer (B - 12) _ _ _ _ n h

lemma sendChunkedStreamM_ok_client (env : Env) (B N : Nat) (s : St)
    (buffer : List Nat) (n : Nat) (hB : 12 < B) (hgt : B < buffer.length)
    (h : (sendChunkedStreamM env B N s buffer).res = .ok n) :
    (sendChunkedStreamM env B N s buffer).st.client = true := by
  by_cases hc : 128 < ceilDiv buffer.length (B - 12)
  · simp [sendChunkedStreamM, hc] at h
  · have hds : 0 < B - 12 := by omega
    have hcnt : 0 < ceilDiv buffer.length (B - 12) :=
      ceilDiv_pos _ _ (by omega) hds
    obtain ⟨k, hk⟩ : ∃ k, ceilDiv buffer.length (B - 12) = k + 1 :=
      ⟨ceilDiv buffer.length (B - 12) - 1, by omega⟩
    have hc2 : ¬ 128 < k + 1 := by
      rw [← hk]
      exact hc
    simp only [sendChunkedStreamM, getServerM, hk, hc2, if_neg,
      not_false_eq_true]
    rw [List.range_eq_range', List.range'_succ]
    exact chunkLoop_client_cons env buffer (B - 12) _ _ _ _ _

lemma sendDataM_error_closing (env : Env) (B N : Nat) (s : St)
    (buffer : List Nat) (e : GErr)
    (h : (sendDataM env B N s buffer).res = .error e) :
    (sendDataM env B N s buffer).st.closing = s.closing := by
  by_cases hfit : buffer.length ≤ B
  · simp only [sendDataM, getServerM, hfit, if_pos] at h ⊢
    split at h
    next e2 heq =>
      dsimp only
      exact sendChunkM_closing env _ buffer _
    next m heq => simp at h
  · simp only [sendDataM, hfit, if_neg, not_false_eq_true] at h ⊢
    split at h
    next e2 heq =>
      dsimp only
      exact sendChunkedStreamM_closing env B N _ buffer
    next m heq => simp at h

/-- The `finally` decrement followed by the destroy hook, on a state left by
a successful inner send with a pending close and no other in-flight work:
the hook finds both counters at zero, destroys the client and thereby
completes the pending close. -/
lemma runDestroyIfNeeded_completes (X : St) (hcl : X.closing = true)
    (hcli : X.client = true) (hm : X.unsentMessages = 1)
    (hc : X.unsentChunks = 0) :
    (runDestroyIfNeeded
        { X with unsentMessages := X.unsentMessages - 1 }).closing = false
    ∧ (runDestroyIfNeeded
        { X with unsentMessages := X.unsentMessages - 1 }).client = false := by
  simp [runDestroyIfNeeded, destroyM, hcl, hcli, hm, hc]

/-- The drain hook on the success path: a send that completes successfully
while a close is pending and no other work is in flight runs
`_destroyIfNeeded`, which finds both counters at zero, destroys the client
(the send itself guarantees a socket exists) and resolves the pending close:
the closing flag is cleared and the socket released. -/
lemma sendDataM_ok_drain (env : Env) (B N : Nat) (s : St)
    (buffer : List Nat) (n : Nat) (hB : 12 < B)
    (h : (sendDataM env B N s buffer).res = .ok n)
    (hcl : s.closing = true) (hm : s.unsentMessages = 0)
    (hc : s.unsentChunks = 0) :
    (sendDataM env B N s buffer).st.closing = false
    ∧ (sendDataM env B N s buffer).st.client = false := by
  by_cases hfit : buffer.length ≤ B
  · simp only [sendDataM, getServerM, hfit, if_pos] at h ⊢
    split at h
    next e heq => simp at h
    next m heq =>
      dsimp only at h ⊢
      have hclient := sendChunkM_client env
        { s with callCount := s.callCount + 1,
                 unsentMessages := s.unsentMessages + 1 }
        buffer (s.callCount % N)
      have hclos := sendChunkM_closing env
        { s with callCount := s.callCount + 1,
                 unsentMessages := s.unsentMessages + 1 }
        buffer (s.callCount % N)
      have hchunks := sendChunkM_ok_chunks env
        { s with callCount := s.callCount + 1,
                 unsentMessages := s.unsentMessages + 1 }
        buffer (s.callCount % N) m heq
      have hmsg := sendChunkM_unsentMessages env
        { s with callCount := s.callCount + 1,
                 unsentMessages := s.unsentMessages + 1 }
        buffer (s.callCount % N)
      have hone : s.unsentMessages + 1 = 1 := by omega
      exact runDestroyIfNeeded_completes _ (hclos.trans hcl) hclient
        (hmsg.trans hone) (hchunks.trans hc)
  · simp only [sendDataM, hfit, if_neg, not_false_eq_true] at h ⊢
    split at h
    next e heq => simp at h
    next m heq =>
      dsimp only at h ⊢
      have hgt : B < buffer.length := by omega
      have hclient := sendChunkedStreamM_ok_client env B N
        { s with unsentMessages := s.unsentMessages + 1 } buffer m hB hgt heq
      have hclos := sendChunkedStreamM_closing env B N
        { s with unsentMessages := s.unsentMessages + 1 } buffer
      have hchunks := sendChunkedStreamM_ok_chunks env B N
        { s with unsentMessages := s.unsentMessages + 1 } buffer m heq
      have hmsg := sendChunkedStreamM_unsentMessages env B N
        { s with unsentMessages := s.unsentMessages + 1 } buffer
      have hone : s.unsentMessages + 1 = 1 := by omega
      exact runDestroyIfNeeded_completes _ (hclos.trans hcl) hclient
        (hmsg.trans hone) (hchunks.trans hc)

/-- C5 (amended): a `close()` call made while a close is already pending
fails with the already-closing error; the first `close()` on an idle client
(both in-flight counters zero) resolves immediately, and with in-flight work
it stays pending.  A pending close is completed only by the destroy hook at
the end of a later **successful** `_sendData`: a send that succeeds while the
close is pending and no other work is in flight clears the closing flag and
releases the socket (the send itself guarantees one exists); a send that
fails skips the hook — the hook line runs only on the success path, after
the `finally` — so the close stays pending even though both counters are
back at zero.  After a close completed by releasing an actual socket, a
further `close()` resolves again (because `destroy()` cleared the
`_destroyIfNeeded` flag); only when no socket was ever created does a
further `close()` still fail with the already-closing error. -/
theorem C5_amended :
    (∀ s : St, s.closing = true → closeCallM s = (.rejectedAlreadyClosing, s))
    ∧ (∀ s : St, s.closing = false → s.unsentChunks = 0 →
        s.unsentMessages = 0 → (closeCallM s).1 = .resolved)
    ∧ (∀ s : St, s.closing = false →
        ¬(s.unsentChunks = 0 ∧ s.unsentMessages = 0) →
        (closeCallM s).1 = .pending ∧ (closeCallM s).2.closing = true)
    ∧ (∀ (env : Env) (B N : Nat) (s : St) (buffer : List Nat) (n : Nat),
        12 < B → (sendDataM env B N s buffer).res = .ok n →
        s.closing = true → s.unsentMessages = 0 → s.unsentChunks = 0 →
        (sendDataM env B N s buffer).st.closing = false
        ∧ (sendDataM env B N s buffer).st.client = false)
    ∧ (∀ (env : Env) (B N : Nat) (s : St) (buffer : List Nat) (e : GErr),
        (∀ k, env.outcome k ≠ .throwSyn) →
        (sendDataM env B N s buffer).res = .error e →
        s.closing = true → s.unsentMessages = 0 → s.unsentChunks = 0 →
        (sendDataM env B N s buffer).st.closing = true
        ∧ (sendDataM env B N s buffer).st.unsentMessages = 0
        ∧ (sendDataM env B N s buffer).st.unsentChunks = 0)
    ∧ (∀ s : St, s.closing = false → s.client = true → s.unsentChunks = 0 →
        s.unsentMessages = 0 →
        (closeCallM (closeCallM s).2).1 = .resolved)
    ∧ (∀ s : St, s.closing = false → s.client = false → s.unsentChunks = 0 →
        s.unsentMessages = 0 →
        (closeCallM (closeCallM s).2).1 = .rejectedAlreadyClosing) := by
  refine ⟨?_, ?_, ?_, ?_, ?_, ?_, ?_⟩
  · intro s h
    simp [closeCallM, h]
  · intro s h hc hm
    simp [closeCallM, h, hc, hm]
  · intro s h hne
    simp [closeCallM, h, hne]
  · intro env B N s buffer n hB h hcl hm hc
    exact sendDataM_ok_drain env B N s buffer n hB h hcl hm hc
  · intro env B N s buffer e hnt h hcl hm hc
    obtain ⟨k, -, hch⟩ := sendDataM_noThrow env B N s buffer hnt
    refine ⟨?_, ?_, ?_⟩
    · rw [sendDataM_error_closing env B N s buffer e h]
      exact hcl
    · rw [sendDataM_unsentMessages env B N s buffer]
      exact hm
    · rw [hch]
      exact hc
  · intro s h hcl hc hm
    simp [closeCallM, destroyM, h, hc, hm, hcl]
  · intro s h hcl hc hm
    simp [closeCallM, destroyM, h, hc, hm, hcl]

/-- C5 witness: the amended statement applied to concrete states — a pending
close rejects a second close; an idle close resolves immediately; a close
with in-flight chunks stays pending; a send completing successfully while a
close is pending completes the close (flag cleared, socket released), while
the same send failing leaves the close pending with both counters at zero;
after a completed close that released a socket a further close resolves, and
with no socket ever created it rejects. -/
theorem C5_witness :
    closeCallM ⟨0, 0, 0, true, true, 0, 0⟩
        = (.rejectedAlreadyClosing, ⟨0, 0, 0, true, true, 0, 0⟩)
    ∧ (closeCallM stSock).1 = .resolved
    ∧ (closeCallM ⟨0, 0, 0, true, false, 0, 2⟩).1 = .pending
    ∧ ((sendDataM envAllOk 1400 1 stPendingClose [1, 2]).st.closing = false
        ∧ (sendDataM envAllOk 1400 1 stPendingClose [1, 2]).st.client = false)
    ∧ ((sendDataM envCbErr 1400 1 stPendingClose [1, 2]).st.closing = true
        ∧ (sendDataM envCbErr 1400 1 stPendingClose [1, 2]).st.unsentMessages
            = 0
        ∧ (sendDataM envCbErr 1400 1 stPendingClose [1, 2]).st.unsentChunks
            = 0)
    ∧ (closeCallM (closeCallM stSock).2).1 = .resolved
    ∧ (closeCallM (closeCallM stFresh).2).1 = .rejectedAlreadyClosing := by
  refine ⟨C5_amended.1 _ rfl,
    C5_amended.2.1 _ rfl rfl rfl,
    (C5_amended.2.2.1 _ rfl (by decide)).1,
    C5_amended.2.2.2.1 envAllOk 1400 1 stPendingClose [1, 2] 2
      (by decide) rfl rfl rfl rfl,
    C5_amended.2.2.2.2.1 envCbErr 1400 1 stPendingClose [1, 2] .transport
      (fun k => by simp [envCbErr]) rfl rfl rfl rfl,
    C5_amended.2.2.2.2.2.1 _ rfl rfl rfl rfl,
    C5_amended.2.2.2.2.2.2 _ rfl rfl rfl rfl⟩

end GraylogModel
